import Mathlib

/-!
Verification of the aipick-game backend's offer lifecycle and awarding engine.

The development shallowly embeds the TypeScript services as pure Lean
functions over an explicit application state:

* `PortfolioOfferServiceImpl` (offer generation, pricing sync, listing) from
  `src/portfolio/entities/portfolio-offer.entity.ts`;
* `PortfolioServiceImpl` (commitment creation, awarding batch job) from
  `src/portfolio/services/portfolio.service.ts`;
* `MongoPortfolioRepository.find` from the repository source.

Persistence is modelled as lists of records; Mongo `updateOneById` calls
become id-keyed list maps; the per-request / per-offer try-catch boundaries
become `Except` values; JavaScript numbers are modelled as rationals.
Asynchronous scheduling is out of scope: each scheduled job is a function
from the pre-state to the post-state of one run.
-/

namespace AipickGame

structure TokenOffer where
  firstToken : String
  secondToken : String
deriving DecidableEq

inductive OfferStatus where
  | WaitingForPricing
  | WaitingForCompletion
  | Completed
deriving DecidableEq

structure PortfolioOffer where
  id : String
  day : Int
  tokenOffers : List TokenOffer
  offerStatus : OfferStatus
  pricingChanges : List (String × ℚ)
deriving DecidableEq

structure Portfolio where
  id : String
  userId : String
  offerId : String
  selectedTokens : List String
  isAwarded : Bool
  earnedPoints : Option ℚ
deriving DecidableEq

structure User where
  id : String
  balance : ℚ
deriving DecidableEq

structure AppState where
  offers : List PortfolioOffer
  portfolios : List Portfolio
  users : List User
deriving DecidableEq

/-! ### Store primitives

`findByKey` models Mongo lookup by a unique key; `updateById` models
`updateOneById` with a field patch applied to the matching record. -/

def findByKey {α : Type} (key : α → String) (l : List α) (target : String) : Option α :=
  l.find? fun a => decide (key a = target)

def updateById {α : Type} (key : α → String) (upd : α → α) (l : List α) (target : String) :
    List α :=
  l.map fun a => if key a = target then upd a else a

def findOffer (offers : List PortfolioOffer) (oid : String) : Option PortfolioOffer :=
  findByKey (·.id) offers oid

def findPortfolio (portfolios : List Portfolio) (pid : String) : Option Portfolio :=
  findByKey (·.id) portfolios pid

def findUser (users : List User) (uid : String) : Option User :=
  findByKey (·.id) users uid

def updatePortfolioAward (portfolios : List Portfolio) (pid : String) (points : ℚ) :
    List Portfolio :=
  updateById (·.id)
    (fun p => { p with isAwarded := true, earnedPoints := some points }) portfolios pid

def creditUser (users : List User) (uid : String) (points : ℚ) : List User :=
  updateById (·.id) (fun u => { u with balance := u.balance + points }) users uid

def markOfferCompleted (offers : List PortfolioOffer) (oid : String) : List PortfolioOffer :=
  updateById (·.id) (fun o => { o with offerStatus := OfferStatus.Completed }) offers oid

def updateOfferPricing (offers : List PortfolioOffer) (oid : String)
    (changes : List (String × ℚ)) : List PortfolioOffer :=
  updateById (·.id)
    (fun o =>
      { o with offerStatus := OfferStatus.WaitingForCompletion
               pricingChanges := changes })
    offers oid

/-- `MongoPortfolioRepository.find`: each filter applies only when given. -/
def portfolioRepoFind (portfolios : List Portfolio) (userId : Option String)
    (offerIds : Option (List String)) (isAwarded : Option Bool) : List Portfolio :=
  portfolios.filter fun p =>
    (match userId with | none => true | some u => decide (p.userId = u)) &&
    (match offerIds with | none => true | some ids => ids.contains p.offerId) &&
    (match isAwarded with | none => true | some b => decide (p.isAwarded = b))

/-- Modelled from the spec: the offer repository's `findByOfferStatus(status, maxDay?)`
query (its implementation is not among the sources).  The spec's pricing-sync step
says "Fetch all offers in status `WaitingForPricing` whose day is ≤ current UTC day",
so the optional `maxDay` bound is inclusive. -/
def findByOfferStatus (offers : List PortfolioOffer) (status : OfferStatus)
    (maxDay : Option Int) : List PortfolioOffer :=
  offers.filter fun o =>
    decide (o.offerStatus = status) &&
    (match maxDay with | none => true | some d => decide (o.day ≤ d))

/-- Modelled from the spec: the offer repository's range query
`find({fromDay, toDay})` (its implementation is not among the sources).  The spec
states that `listOffersForDays` returns offers whose day lies in
`[currentDay-days, currentDay]` inclusive while the service passes
`toDay = currentDay + 1`, so the upper bound is exclusive. -/
def offerRepoFindRange (offers : List PortfolioOffer) (fromDay toDay : Int) :
    List PortfolioOffer :=
  offers.filter fun o => decide (fromDay ≤ o.day) && decide (o.day < toDay)

/-! ### PortfolioOfferServiceImpl read accessors -/

def listOffersForDays (currentDay days : Int) (offers : List PortfolioOffer) :
    List PortfolioOffer :=
  offerRepoFindRange offers (currentDay - days) (currentDay + 1)

def listOffersWaitingForCompletion (offers : List PortfolioOffer) : List PortfolioOffer :=
  findByOfferStatus offers OfferStatus.WaitingForCompletion none

/-! ### Offer generation -/

def MAX_DAYS_THRESHOLD : Int := 3
def OFFERS_TO_GENERATE : Nat := 7
def MAX_TOKEN_OFFERS : Nat := 6

/-- Modelled from the spec: the portfolio-offer schema (not among the sources)
defaults a new offer's status; "Each offer starts in status `WaitingForPricing`". -/
def defaultOfferStatus : OfferStatus := OfferStatus.WaitingForPricing

/-- The payload of `portfolioOfferRepository.createMany`.  The `date` field of the
source (a calendar date denormalized from `day` for display) is omitted. -/
structure CreatePortfolioOfferParams where
  day : Int
  tokenOffers : List TokenOffer
  offerStatus : OfferStatus
deriving DecidableEq

def nextOfferDayOf (lastOfferDay : Option Int) (currentDay : Int) : Int :=
  match lastOfferDay with
  | some d => d + 1
  | none => currentDay

/-- One loop iteration of `generateOffers`: `lodash.sampleSize(tokens, 12)` is
modelled by the `sample` parameter (per day, since each iteration draws afresh);
pairs are formed positionally from the drawn tokens.  Out-of-range JS indexing
would give `undefined`; `getD` with `""` stands in for it (the theorems assume a
full draw, which `sampleSize` delivers whenever the token universe is large
enough). -/
def mkGeneratedOffer (sample : Int → List String) (day : Int) : CreatePortfolioOfferParams :=
  let availableTokens := sample day
  { day := day
    offerStatus := defaultOfferStatus
    tokenOffers := (List.range MAX_TOKEN_OFFERS).map fun index =>
      { firstToken := availableTokens.getD (index * 2) ""
        secondToken := availableTokens.getD (index * 2 + 1) "" } }

/-- `generateOffers`: `none` means the run returned before any write; `some batch`
means one `createMany(batch)` write.  The loop bound `day ≤ nextOfferDay +
OFFERS_TO_GENERATE` is inclusive, exactly as in the source. -/
def generateOffers (sample : Int → List String) (currentDay : Int)
    (lastOfferDay : Option Int) : Option (List CreatePortfolioOfferParams) :=
  let nextOfferDay := nextOfferDayOf lastOfferDay currentDay
  if MAX_DAYS_THRESHOLD < nextOfferDay - currentDay then none
  else
    some ((List.range (OFFERS_TO_GENERATE + 1)).map fun i : Nat =>
      mkGeneratedOffer sample (nextOfferDay + (i : Int)))

/-! ### Commitment creation (`PortfolioServiceImpl.create`) -/

structure CreatePortfolioParams where
  userId : String
  selectedTokens : List String
  offerId : String
deriving DecidableEq

/-- `validateSelectedTokens`: throws on a length mismatch, but merely *returns*
the per-position boolean, exactly as the source does. -/
def validateSelectedTokens (selectedTokens : List String) (offer : PortfolioOffer) :
    Except String Bool :=
  if selectedTokens.length ≠ offer.tokenOffers.length then
    Except.error "Invalid number of selected tokens"
  else
    Except.ok ((selectedTokens.zip offer.tokenOffers).all fun pair =>
      decide (pair.2.firstToken = pair.1) || decide (pair.2.secondToken = pair.1))

def listForUserAndOffers (portfolios : List Portfolio) (userId : String)
    (offerIds : List String) : Except String (List Portfolio) :=
  if offerIds.isEmpty then
    Except.error "At least one offer should be provided."
  else
    Except.ok (portfolioRepoFind portfolios (some userId) (some offerIds) none)

def create (currentDay : Int) (st : AppState) (params : CreatePortfolioParams)
    (newId : String) : Except String (AppState × Portfolio) :=
  match findOffer st.offers params.offerId with
  | none => Except.error "Provided offer is not found"
  | some offer =>
    match findUser st.users params.userId with
    | none => Except.error "Provided user is not found"
    | some _ =>
      if offer.day ≠ currentDay + 1 then Except.error "Provided offer is not available."
      else
        match validateSelectedTokens params.selectedTokens offer with
        | Except.error e => Except.error e
        | Except.ok _ =>
          -- the boolean result is discarded, as in the source call site
          if st.portfolios.any fun p =>
              decide (p.userId = params.userId) && decide (p.offerId = params.offerId) then
            Except.error "Portfolio for this day already submitted."
          else
            let portfolio : Portfolio :=
              { id := newId, userId := params.userId, offerId := params.offerId
                selectedTokens := params.selectedTokens, isAwarded := false
                earnedPoints := none }
            Except.ok ({ st with portfolios := st.portfolios ++ [portfolio] }, portfolio)

/-! ### Pricing sync (`syncOffersPrices`) -/

structure CoinPricing where
  startDayPrice : ℚ
  endDayPrice : ℚ
deriving DecidableEq

/-- Modelled from the spec: `calculatePercentageChange` lives in `@common/utils`
(not among the sources); "Percentage change per token =
`(endDayPrice - startDayPrice) / startDayPrice`". -/
def calculatePercentageChange (startDayPrice endDayPrice : ℚ) : ℚ :=
  (endDayPrice - startDayPrice) / startDayPrice

/-- The error carried by the per-offer boundary when the absent pricing result is
dereferenced (`pricing.startDayPrice` on `null` raises a TypeError in JS). -/
def nullDerefMsg : String := "Cannot read startDayPrice of null"

/-- JS object assignment `pricingChanges[token] = value`: replace in place if the
key exists, else append. -/
def setChange (changes : List (String × ℚ)) (token : String) (value : ℚ) :
    List (String × ℚ) :=
  if (changes.find? fun c => decide (c.1 = token)).isSome then
    changes.map fun c => if c.1 = token then (token, value) else c
  else changes ++ [(token, value)]

/-- The per-token callback of `syncOffersPrices`: when the gateway result is
absent it first sets the skip flag and then dereferences the absent result,
which raises — so the `none` case always ends in the error branch. -/
def syncTokenPricing (pricing : Option CoinPricing) (shouldSkipOffer : Bool)
    (pricingChanges : List (String × ℚ)) (token : String) :
    Except String (Bool × List (String × ℚ)) :=
  let flagged := if pricing.isNone then true else shouldSkipOffer
  match pricing with
  | none => Except.error nullDerefMsg
  | some p =>
    Except.ok (flagged,
      setChange pricingChanges token
        (calculatePercentageChange p.startDayPrice p.endDayPrice))

/-- The per-offer token loop: both tokens of each pair are fetched (the source's
`Promise.all` fan-out, sequentialized; a rejection surfaces as the error), then
the loop breaks when the skip flag is set. -/
def syncOfferTokens (api : String → Int → Option CoinPricing) (day : Int) :
    List TokenOffer → Bool → List (String × ℚ) → Except String (Bool × List (String × ℚ))
  | [], shouldSkipOffer, pricingChanges => Except.ok (shouldSkipOffer, pricingChanges)
  | tokenOffer :: rest, shouldSkipOffer, pricingChanges =>
    match syncTokenPricing (api tokenOffer.firstToken day) shouldSkipOffer pricingChanges
        tokenOffer.firstToken with
    | Except.error e => Except.error e
    | Except.ok (flag1, changes1) =>
      match syncTokenPricing (api tokenOffer.secondToken day) flag1 changes1
          tokenOffer.secondToken with
      | Except.error e => Except.error e
      | Except.ok (flag2, changes2) =>
        if flag2 then Except.ok (flag2, changes2)
        else syncOfferTokens api day rest flag2 changes2

/-- Processing of one fetched offer inside the per-offer try-catch: an exception
or a set skip flag leaves the store untouched; otherwise one update persists the
full pricing map together with the status transition. -/
def syncOfferStep (api : String → Int → Option CoinPricing)
    (acc : List PortfolioOffer) (offer : PortfolioOffer) : List PortfolioOffer :=
  match syncOfferTokens api offer.day offer.tokenOffers false [] with
  | Except.error _ => acc
  | Except.ok (true, _) => acc
  | Except.ok (false, changes) => updateOfferPricing acc offer.id changes

def syncOffersPrices (api : String → Int → Option CoinPricing) (currentDay : Int)
    (offers : List PortfolioOffer) : List PortfolioOffer :=
  if (findByOfferStatus offers OfferStatus.WaitingForPricing (some currentDay)).isEmpty then
    offers
  else
    (findByOfferStatus offers OfferStatus.WaitingForPricing (some currentDay)).foldl
      (syncOfferStep api) offers

/-! ### Awarding (`awardPortfolios`) -/

def lookupChange (changes : List (String × ℚ)) (token : String) : Option ℚ :=
  (changes.find? fun c => decide (c.1 = token)).map (·.2)

/-- The `reduce` computing `earnedPoints`; a missing percentage throws. -/
def computeEarnedPoints (changes : List (String × ℚ)) :
    List String → ℚ → Except String ℚ
  | [], points => Except.ok points
  | token :: rest, points =>
    match lookupChange changes token with
    | none => Except.error "Percentage change not found for token."
    | some percentage => computeEarnedPoints changes rest (points + percentage)

/-- The value `computeEarnedPoints` returns when every token is priced. -/
def sumChanges (changes : List (String × ℚ)) : List String → ℚ
  | [] => 0
  | token :: rest => (lookupChange changes token).getD 0 + sumChanges changes rest

/-- The inner portfolio loop of `awardPortfolios`: each award is one transaction
(portfolio flag/points flip and user credit together — a single state update
here); a thrown error aborts the loop, keeping the already-committed
transactions, and reports `false` so the offer is not marked completed. -/
def awardLoop (changes : List (String × ℚ)) :
    List Portfolio → AppState → AppState × Bool
  | [], st => (st, true)
  | portfolio :: rest, st =>
    match computeEarnedPoints changes portfolio.selectedTokens 0 with
    | Except.error _ => (st, false)
    | Except.ok earnedPoints =>
      awardLoop changes rest
        { st with
          portfolios := updatePortfolioAward st.portfolios portfolio.id earnedPoints
          users := creditUser st.users portfolio.userId earnedPoints }

/-- `lodash.groupBy` followed by `groupedPortfolios[offer.getId()] || []`:
an order-preserving filter of the fetched snapshot. -/
def groupFor (portfolios : List Portfolio) (oid : String) : List Portfolio :=
  portfolios.filter fun p => decide (p.offerId = oid)

/-- The body of the per-offer try-catch of `awardPortfolios`: on success the
offer is marked completed, on a caught error it is left as it was. -/
def processOffer (st : AppState) (offer : PortfolioOffer) (group : List Portfolio) :
    AppState :=
  match awardLoop offer.pricingChanges group st with
  | (st2, true) => { st2 with offers := markOfferCompleted st2.offers offer.id }
  | (st2, false) => st2

def awardSnapshot (st : AppState) (offerIds : List String) : List Portfolio :=
  portfolioRepoFind st.portfolios none (some offerIds) (some false)

def awardStep (snapshot : List Portfolio) (acc : AppState) (offer : PortfolioOffer) :
    AppState :=
  processOffer acc offer (groupFor snapshot offer.id)

/-- `awardPortfolios`: offers and the non-awarded portfolio snapshot are fetched
up front; the offers are then processed sequentially. -/
def awardPortfolios (st : AppState) : AppState :=
  (listOffersWaitingForCompletion st.offers).foldl
    (awardStep (awardSnapshot st ((listOffersWaitingForCompletion st.offers).map (·.id)))) st

/-! ### Concrete instances used by witnesses and counterexamples -/

/-- The two tokens of a generated pair. -/
def pairTokens (t : TokenOffer) : List String := [t.firstToken, t.secondToken]

def c1Offer : PortfolioOffer :=
  { id := "o1", day := 6, tokenOffers := [{ firstToken := "BTC", secondToken := "ETH" }]
    offerStatus := OfferStatus.WaitingForPricing, pricingChanges := [] }

def c1Portfolio : Portfolio :=
  { id := "p1", userId := "u1", offerId := "o1", selectedTokens := ["DOGE"]
    isAwarded := false, earnedPoints := none }

def c1State : AppState :=
  { offers := [c1Offer], portfolios := [], users := [{ id := "u1", balance := 1000 }] }

def sampleTokens12 : List String :=
  ["t01", "t02", "t03", "t04", "t05", "t06", "t07", "t08", "t09", "t10", "t11", "t12"]

/-- A pricing gateway that is absent exactly on token `"X"`. -/
def exApi : String → Int → Option CoinPricing :=
  fun token _ => if token = "X" then none else some { startDayPrice := 1, endDayPrice := 2 }

def syncOffer1 : PortfolioOffer :=
  { id := "s1", day := 5, tokenOffers := [{ firstToken := "X", secondToken := "Y" }]
    offerStatus := OfferStatus.WaitingForPricing, pricingChanges := [] }

def syncOffer2 : PortfolioOffer :=
  { id := "s2", day := 6, tokenOffers := [{ firstToken := "Y", secondToken := "Z" }]
    offerStatus := OfferStatus.WaitingForPricing, pricingChanges := [] }

/-- An offer awaiting completion whose pricing knows tokens `A` and `B` only. -/
def cxOffer : PortfolioOffer :=
  { id := "o1", day := 5, tokenOffers := [{ firstToken := "A", secondToken := "B" }]
    offerStatus := OfferStatus.WaitingForCompletion
    pricingChanges := [("A", 5), ("B", -3)] }

/-- A portfolio whose selected token `C` is missing from `cxOffer`'s pricing. -/
def cxBadPortfolio : Portfolio :=
  { id := "p1", userId := "u1", offerId := "o1", selectedTokens := ["C"]
    isAwarded := false, earnedPoints := none }

/-- A valid portfolio for `cxOffer`, listed after the failing one. -/
def cxGoodPortfolio : Portfolio :=
  { id := "p2", userId := "u2", offerId := "o1", selectedTokens := ["A"]
    isAwarded := false, earnedPoints := none }

/-- State in which the valid portfolio is preceded by a failing sibling. -/
def cxState : AppState :=
  { offers := [cxOffer]
    portfolios := [cxBadPortfolio, cxGoodPortfolio]
    users := [{ id := "u1", balance := 0 }, { id := "u2", balance := 0 }] }

def wOffer : PortfolioOffer :=
  { id := "o1", day := 5, tokenOffers := [{ firstToken := "A", secondToken := "B" }]
    offerStatus := OfferStatus.WaitingForCompletion, pricingChanges := [("A", 5)] }

def wPortfolio : Portfolio :=
  { id := "p2", userId := "u2", offerId := "o1", selectedTokens := ["A"]
    isAwarded := false, earnedPoints := none }

def wUser : User := { id := "u2", balance := 0 }

def wState : AppState :=
  { offers := [wOffer], portfolios := [wPortfolio], users := [wUser] }

/-- State whose only portfolio for `wOffer` is already awarded. -/
def w9State : AppState :=
  { offers := [wOffer]
    portfolios := [{ id := "p3", userId := "u2", offerId := "o1", selectedTokens := ["A"]
                     isAwarded := true, earnedPoints := some 1 }]
    users := [wUser] }

/-! ### Evolution relations

`awardPortfolios` only flips portfolios to awarded, offers to completed and
adds to balances; these relations record exactly that, pointwise on the
stores, and are used to reason about a second run of the job. -/

def PortfolioEvolved (q q2 : Portfolio) : Prop :=
  q2.id = q.id ∧ q2.userId = q.userId ∧ q2.offerId = q.offerId ∧
  q2.selectedTokens = q.selectedTokens ∧ (q2.isAwarded = false → q2 = q)

def OfferEvolved (o o2 : PortfolioOffer) : Prop :=
  o2.id = o.id ∧ (o2.offerStatus = OfferStatus.WaitingForCompletion → o2 = o)

def UserEvolved (u u2 : User) : Prop := u2.id = u.id

def StateEvolved (st st2 : AppState) : Prop :=
  List.Forall₂ OfferEvolved st.offers st2.offers ∧
  List.Forall₂ PortfolioEvolved st.portfolios st2.portfolios ∧
  List.Forall₂ UserEvolved st.users st2.users

/-! ## Theorems -/

/-- C1: the code does not reject a selection whose token matches neither of its
pair's tokens.  `validateSelectedTokens` evaluates the per-position check to
`false`, yet `create` persists the portfolio: the boolean is discarded at the
call site, so only the length mismatch ever rejects.  `"DOGE"` is neither
`"BTC"` nor `"ETH"`, the pair of the day's single token offer. -/
theorem create_accepts_mismatched_token :
    validateSelectedTokens ["DOGE"] c1Offer = Except.ok false ∧
    create 5 c1State { userId := "u1", selectedTokens := ["DOGE"], offerId := "o1" } "p1" =
      Except.ok ({ c1State with portfolios := [c1Portfolio] }, c1Portfolio) :=
  ⟨rfl, rfl⟩

/-- C5: when the next offer day is more than `MAX_DAYS_THRESHOLD` days past the
current day, `generateOffers` returns before building anything: no batch is
created and no write happens. -/
theorem generateOffers_day_gap_guard (sample : Int → List String) (currentDay d : Int)
    (h : MAX_DAYS_THRESHOLD < (d + 1) - currentDay) :
    generateOffers sample currentDay (some d) = none := by
  simp only [generateOffers, nextOfferDayOf]
  rw [if_pos h]

/-- C5 witness: the guard fires for max existing day 10 on current day 0. -/
theorem generateOffers_day_gap_guard_witness :
    MAX_DAYS_THRESHOLD < ((10 : Int) + 1) - 0 ∧
      generateOffers (fun _ => sampleTokens12) 0 (some 10) = none :=
  ⟨by decide, generateOffers_day_gap_guard (fun _ => sampleTokens12) 0 10 (by decide)⟩

/-- C6 counterexample: the generation loop's inclusive upper bound yields 8
offers, not the 7 the claim states. -/
theorem generateOffers_count_eight :
    (generateOffers (fun _ => sampleTokens12) 0 none).map List.length = some 8 ∧
    (generateOffers (fun _ => sampleTokens12) 0 none).map List.length ≠
      some OFFERS_TO_GENERATE := by
  decide

/-- C7: `listOffersForDays` returns exactly the offers whose day lies in the
closed interval `[currentDay - days, currentDay]`: today's offer is included
and no future-day offer is ever returned. -/
theorem listOffersForDays_interval (currentDay days : Int) (offers : List PortfolioOffer)
    (o : PortfolioOffer) (h : 0 ≤ days) :
    o ∈ listOffersForDays currentDay days offers ↔
      o ∈ offers ∧ currentDay - days ≤ o.day ∧ o.day ≤ currentDay := by
  simp [listOffersForDays, offerRepoFindRange, List.mem_filter, Int.lt_add_one_iff,
    and_assoc]

/-- C7 witness: for `days = 2` around current day 10, an offer of day 9 is
returned. -/
theorem listOffersForDays_interval_witness :
    (0 : Int) ≤ 2 ∧
      (syncOffer1 ∈ listOffersForDays 10 2 [syncOffer1] ↔
        syncOffer1 ∈ [syncOffer1] ∧ (10 : Int) - 2 ≤ syncOffer1.day ∧
          syncOffer1.day ≤ 10) :=
  ⟨by decide, listOffersForDays_interval 10 2 [syncOffer1] syncOffer1 (by decide)⟩

/-- C10: `listForUserAndOffers` rejects an empty offer-id list before any store
query, and for a non-empty list returns exactly the repository query's result
for that user and those offers. -/
theorem listForUserAndOffers_guard (portfolios : List Portfolio) (userId : String) :
    listForUserAndOffers portfolios userId [] =
      Except.error "At least one offer should be provided." ∧
    ∀ offerIds : List String, offerIds ≠ [] →
      listForUserAndOffers portfolios userId offerIds =
        Except.ok (portfolioRepoFind portfolios (some userId) (some offerIds) none) := by
  refine ⟨rfl, fun offerIds hne => ?_⟩
  simp [listForUserAndOffers, List.isEmpty_iff, hne]

/-- C10 witness: instantiated at the counterexample state's portfolio list. -/
theorem listForUserAndOffers_guard_witness :
    listForUserAndOffers [cxGoodPortfolio] "u2" [] =
      Except.error "At least one offer should be provided." ∧
    (["o1"] ≠ ([] : List String) ∧
      listForUserAndOffers [cxGoodPortfolio] "u2" ["o1"] =
        Except.ok (portfolioRepoFind [cxGoodPortfolio] (some "u2") (some ["o1"]) none)) :=
  ⟨(listForUserAndOffers_guard [cxGoodPortfolio] "u2").1,
   by decide,
   (listForUserAndOffers_guard [cxGoodPortfolio] "u2").2 ["o1"] (by decide)⟩

/-- C6 (amended: the inclusive loop bound yields `OFFERS_TO_GENERATE + 1 = 8`
offers, not 7): when the day-gap guard does not fire and each day's draw
delivers `2 * MAX_TOKEN_OFFERS` distinct tokens, `generateOffers` persists one
batch of 8 offers with consecutive days starting at `max(existingDay)+1` (or
the current day when none exists), each offer holding exactly 6 positionally
formed, pairwise disjoint token pairs and starting in `WaitingForPricing`. -/
theorem generateOffers_batch (sample : Int → List String) (currentDay : Int)
    (lastOfferDay : Option Int)
    (hguard : nextOfferDayOf lastOfferDay currentDay - currentDay ≤ MAX_DAYS_THRESHOLD)
    (hsample : ∀ i : Nat, i < OFFERS_TO_GENERATE + 1 →
      (sample (nextOfferDayOf lastOfferDay currentDay + i)).length = 2 * MAX_TOKEN_OFFERS ∧
      (sample (nextOfferDayOf lastOfferDay currentDay + i)).Nodup) :
    ∃ batch, generateOffers sample currentDay lastOfferDay = some batch ∧
      batch.length = OFFERS_TO_GENERATE + 1 ∧
      ∀ i : Nat, ∀ hi : i < batch.length,
        (batch.get ⟨i, hi⟩).day = nextOfferDayOf lastOfferDay currentDay + i ∧
        (batch.get ⟨i, hi⟩).offerStatus = OfferStatus.WaitingForPricing ∧
        (batch.get ⟨i, hi⟩).tokenOffers.length = MAX_TOKEN_OFFERS ∧
        (∀ j : Nat, ∀ hj : j < (batch.get ⟨i, hi⟩).tokenOffers.length,
          (batch.get ⟨i, hi⟩).tokenOffers.get ⟨j, hj⟩ =
            { firstToken :=
                (sample (nextOfferDayOf lastOfferDay currentDay + i)).getD (j * 2) ""
              secondToken :=
                (sample (nextOfferDayOf lastOfferDay currentDay + i)).getD (j * 2 + 1) "" } ∧
          (pairTokens ((batch.get ⟨i, hi⟩).tokenOffers.get ⟨j, hj⟩)).Nodup) ∧
        ∀ j k : Nat, ∀ hj : j < (batch.get ⟨i, hi⟩).tokenOffers.length,
          ∀ hk : k < (batch.get ⟨i, hi⟩).tokenOffers.length, j ≠ k →
          List.Disjoint (pairTokens ((batch.get ⟨i, hi⟩).tokenOffers.get ⟨j, hj⟩))
            (pairTokens ((batch.get ⟨i, hi⟩).tokenOffers.get ⟨k, hk⟩)) := by
  refine ⟨(List.range (OFFERS_TO_GENERATE + 1)).map fun i : Nat =>
    mkGeneratedOffer sample (nextOfferDayOf lastOfferDay currentDay + (i : Int)), ?_, by simp, ?_⟩
  · simp only [generateOffers]
    rw [if_neg (by omega)]
  · intro i hi
    simp only [List.length_map, List.length_range] at hi
    have hget : ∀ hi2 : i < ((List.range (OFFERS_TO_GENERATE + 1)).map fun i : Nat =>
        mkGeneratedOffer sample (nextOfferDayOf lastOfferDay currentDay + (i : Int))).length,
        ((List.range (OFFERS_TO_GENERATE + 1)).map fun i : Nat =>
          mkGeneratedOffer sample (nextOfferDayOf lastOfferDay currentDay + (i : Int))).get
            ⟨i, hi2⟩ =
          mkGeneratedOffer sample (nextOfferDayOf lastOfferDay currentDay + (i : Int)) := by
      intro hi2
      simp [List.get_eq_getElem]
    rw [hget]
    obtain ⟨hlen, hnd⟩ := hsample i hi
    set s := sample (nextOfferDayOf lastOfferDay currentDay + (i : Int)) with hs
    have hpair : ∀ j : Nat, ∀ hj : j < (mkGeneratedOffer sample
        (nextOfferDayOf lastOfferDay currentDay + (i : Int))).tokenOffers.length,
        (mkGeneratedOffer sample (nextOfferDayOf lastOfferDay currentDay + (i : Int))).tokenOffers.get
          ⟨j, hj⟩ = { firstToken := s.getD (j * 2) "", secondToken := s.getD (j * 2 + 1) "" } := by
      intro j hj
      simp only [mkGeneratedOffer, List.get_eq_getElem, List.getElem_map, List.getElem_range]
    have hlen6 : (mkGeneratedOffer sample
        (nextOfferDayOf lastOfferDay currentDay + (i : Int))).tokenOffers.length =
          MAX_TOKEN_OFFERS := by
      simp [mkGeneratedOffer]
    have hElem : ∀ a : Nat, a < 2 * MAX_TOKEN_OFFERS → ∀ b : Nat, b < 2 * MAX_TOKEN_OFFERS →
        a ≠ b → s.getD a "" ≠ s.getD b "" := by
      intro a ha b hb hab
      have ha2 : a < s.length := by omega
      have hb2 : b < s.length := by omega
      rw [List.getD_eq_getElem s "" ha2, List.getD_eq_getElem s "" hb2]
      intro hcontra
      have := (List.Nodup.get_inj_iff hnd (i := ⟨a, ha2⟩) (j := ⟨b, hb2⟩)).mp (by
        simpa [List.get_eq_getElem] using hcontra)
      exact hab (by simpa using congrArg Fin.val this)
    refine ⟨by simp [mkGeneratedOffer], by simp [mkGeneratedOffer, defaultOfferStatus], hlen6,
      fun j hj => ⟨hpair j hj, ?_⟩, fun j k hj hk hjk => ?_⟩
    · rw [hpair j hj]
      have hj6 : j < MAX_TOKEN_OFFERS := by rw [hlen6] at hj; exact hj
      simp only [pairTokens, List.nodup_cons, List.mem_singleton, List.nodup_nil, and_true,
        List.mem_cons, List.not_mem_nil, or_false]
      exact ⟨hElem (j * 2) (by omega) (j * 2 + 1) (by omega) (by omega), by simp⟩
    · rw [hpair j hj, hpair k hk]
      have hj6 : j < MAX_TOKEN_OFFERS := by rw [hlen6] at hj; exact hj
      have hk6 : k < MAX_TOKEN_OFFERS := by rw [hlen6] at hk; exact hk
      intro t ht htk
      simp only [pairTokens, List.mem_cons, List.not_mem_nil, or_false] at ht htk
      rcases ht with rfl | rfl <;> rcases htk with h2 | h2
      · exact hElem (j * 2) (by omega) (k * 2) (by omega) (by omega) h2
      · exact hElem (j * 2) (by omega) (k * 2 + 1) (by omega) (by omega) h2
      · exact hElem (j * 2 + 1) (by omega) (k * 2) (by omega) (by omega) h2
      · exact hElem (j * 2 + 1) (by omega) (k * 2 + 1) (by omega) (by omega) h2


/-- C6 witness: a concrete full draw on current day 0 with no existing offer. -/
theorem generateOffers_batch_witness :
    (nextOfferDayOf none 0 - 0 ≤ MAX_DAYS_THRESHOLD) ∧
    (∀ i : Nat, i < OFFERS_TO_GENERATE + 1 →
      sampleTokens12.length = 2 * MAX_TOKEN_OFFERS ∧ sampleTokens12.Nodup) ∧
    (∃ batch, generateOffers (fun _ => sampleTokens12) 0 none = some batch ∧
      batch.length = OFFERS_TO_GENERATE + 1 ∧
      ∀ i : Nat, ∀ hi : i < batch.length,
        (batch.get ⟨i, hi⟩).day = nextOfferDayOf none 0 + i ∧
        (batch.get ⟨i, hi⟩).offerStatus = OfferStatus.WaitingForPricing ∧
        (batch.get ⟨i, hi⟩).tokenOffers.length = MAX_TOKEN_OFFERS ∧
        (∀ j : Nat, ∀ hj : j < (batch.get ⟨i, hi⟩).tokenOffers.length,
          (batch.get ⟨i, hi⟩).tokenOffers.get ⟨j, hj⟩ =
            { firstToken := sampleTokens12.getD (j * 2) ""
              secondToken := sampleTokens12.getD (j * 2 + 1) "" } ∧
          (pairTokens ((batch.get ⟨i, hi⟩).tokenOffers.get ⟨j, hj⟩)).Nodup) ∧
        ∀ j k : Nat, ∀ hj : j < (batch.get ⟨i, hi⟩).tokenOffers.length,
          ∀ hk : k < (batch.get ⟨i, hi⟩).tokenOffers.length, j ≠ k →
          List.Disjoint (pairTokens ((batch.get ⟨i, hi⟩).tokenOffers.get ⟨j, hj⟩))
            (pairTokens ((batch.get ⟨i, hi⟩).tokenOffers.get ⟨k, hk⟩))) :=
  ⟨by decide, by decide,
   generateOffers_batch (fun _ => sampleTokens12) 0 none (by decide) (by decide)⟩


lemma findByKey_map {α : Type} (key : α → String) (f : α → α) (hf : ∀ a, key (f a) = key a)
    (l : List α) (target : String) :
    findByKey key (l.map f) target = (findByKey key l target).map f := by
  induction l with
  | nil => rfl
  | cons a rest ih =>
    unfold findByKey at *
    rw [List.map_cons]
    by_cases h : key a = target
    · rw [List.find?_cons_of_pos _ (by simp [hf, h]), List.find?_cons_of_pos _ (by simp [h])]
      rfl
    · rw [List.find?_cons_of_neg _ (by simp [hf, h]), List.find?_cons_of_neg _ (by simp [h])]
      exact ih

lemma findByKey_some {α : Type} {key : α → String} {l : List α} {target : String} {a : α}
    (h : findByKey key l target = some a) : key a = target ∧ a ∈ l := by
  unfold findByKey at h
  exact ⟨by simpa using List.find?_some h, List.mem_of_find?_eq_some h⟩

lemma findByKey_updateById_self {α : Type} (key : α → String) (upd : α → α)
    (hkey : ∀ a, key (upd a) = key a) (l : List α) (target : String) :
    findByKey key (updateById key upd l target) target =
      (findByKey key l target).map upd := by
  unfold updateById
  rw [findByKey_map key _ (fun a => by by_cases h : key a = target <;> simp [h, hkey]) l target]
  cases hfind : findByKey key l target with
  | none => rfl
  | some a =>
    have ha := (findByKey_some hfind).1
    simp [ha]

lemma findByKey_updateById_other {α : Type} (key : α → String) (upd : α → α)
    (hkey : ∀ a, key (upd a) = key a) (l : List α) (target k : String) (h : k ≠ target) :
    findByKey key (updateById key upd l target) k = findByKey key l k := by
  unfold updateById
  rw [findByKey_map key _ (fun a => by by_cases h2 : key a = target <;> simp [h2, hkey]) l k]
  cases hfind : findByKey key l k with
  | none => rfl
  | some a =>
    have ha := (findByKey_some hfind).1
    simp [ha, h]

lemma key_eq_of_mem {α : Type} (key : α → String) {l : List α} {a b : α}
    (hnd : (l.map key).Nodup) (ha : a ∈ l) (hb : b ∈ l) (hk : key a = key b) : a = b := by
  induction l with
  | nil => simp at ha
  | cons c rest ih =>
    rw [List.map_cons, List.nodup_cons] at hnd
    rcases List.mem_cons.mp ha with rfl | ha2 <;> rcases List.mem_cons.mp hb with rfl | hb2
    · rfl
    · exact absurd (hk ▸ List.mem_map_of_mem key hb2) hnd.1
    · exact absurd (hk ▸ List.mem_map_of_mem key ha2) (by simpa [hk] using hnd.1)
    · exact ih hnd.2 ha2 hb2

lemma findByKey_of_mem {α : Type} (key : α → String) {l : List α} {a : α}
    (ha : a ∈ l) (hnd : (l.map key).Nodup) : findByKey key l (key a) = some a := by
  induction l with
  | nil => simp at ha
  | cons c rest ih =>
    rw [List.map_cons, List.nodup_cons] at hnd
    unfold findByKey
    by_cases h : key c = key a
    · rw [List.find?_cons_of_pos _ (by simp [h])]
      rcases List.mem_cons.mp ha with rfl | ha2
      · rfl
      · exact absurd (h ▸ List.mem_map_of_mem key ha2) hnd.1
    · rw [List.find?_cons_of_neg _ (by simp [h])]
      rcases List.mem_cons.mp ha with rfl | ha2
      · exact absurd rfl h
      · exact ih ha2 hnd.2

lemma syncTokenPricing_some (p : CoinPricing) (flag : Bool) (changes : List (String × ℚ))
    (token : String) :
    syncTokenPricing (some p) flag changes token =
      Except.ok (flag,
        setChange changes token (calculatePercentageChange p.startDayPrice p.endDayPrice)) := by
  simp [syncTokenPricing]

lemma syncTokenPricing_none (flag : Bool) (changes : List (String × ℚ)) (token : String) :
    syncTokenPricing none flag changes token = Except.error nullDerefMsg := rfl

lemma syncOfferTokens_ok_flag (api : String → Int → Option CoinPricing) (day : Int) :
    ∀ (tos : List TokenOffer) (changes0 : List (String × ℚ)) (flag : Bool)
      (changes1 : List (String × ℚ)),
      syncOfferTokens api day tos false changes0 = Except.ok (flag, changes1) →
      flag = false := by
  intro tos
  induction tos with
  | nil =>
    intro ch0 flag ch1 h
    simp only [syncOfferTokens, Except.ok.injEq, Prod.mk.injEq] at h
    exact h.1.symm
  | cons tp rest ih =>
    intro ch0 flag ch1 h
    cases h1 : api tp.firstToken day with
    | none =>
      simp [syncOfferTokens, h1, syncTokenPricing_none] at h
    | some p1 =>
      cases h2 : api tp.secondToken day with
      | none =>
        simp [syncOfferTokens, h1, h2, syncTokenPricing_some, syncTokenPricing_none] at h
      | some p2 =>
        simp only [syncOfferTokens, h1, h2, syncTokenPricing_some, Bool.false_eq_true,
          reduceIte] at h
        exact ih _ _ _ h

lemma syncOfferTokens_error_of_absent (api : String → Int → Option CoinPricing) (day : Int) :
    ∀ (tos : List TokenOffer) (changes0 : List (String × ℚ)),
      (∃ tp ∈ tos, api tp.firstToken day = none ∨ api tp.secondToken day = none) →
      syncOfferTokens api day tos false changes0 = Except.error nullDerefMsg := by
  intro tos
  induction tos with
  | nil =>
    rintro ch0 ⟨tp, hmem, -⟩
    simp at hmem
  | cons t rest ih =>
    rintro ch0 ⟨tp, hmem, habs⟩
    cases h1 : api t.firstToken day with
    | none =>
      simp only [syncOfferTokens, h1, syncTokenPricing_none]
    | some p1 =>
      cases h2 : api t.secondToken day with
      | none =>
        simp only [syncOfferTokens, h1, h2, syncTokenPricing_some, syncTokenPricing_none]
      | some p2 =>
        simp only [syncOfferTokens, h1, h2, syncTokenPricing_some, Bool.false_eq_true,
          reduceIte]
        rcases List.mem_cons.mp hmem with rfl | hmem2
        · rcases habs with h3 | h3
          · rw [h1] at h3; exact absurd h3 (by simp)
          · rw [h2] at h3; exact absurd h3 (by simp)
        · exact ih _ ⟨tp, hmem2, habs⟩

lemma syncOfferTokens_ok_of_present (api : String → Int → Option CoinPricing) (day : Int) :
    ∀ (tos : List TokenOffer) (changes0 : List (String × ℚ)),
      (∀ tp ∈ tos, (api tp.firstToken day).isSome = true ∧
        (api tp.secondToken day).isSome = true) →
      ∃ ch, syncOfferTokens api day tos false changes0 = Except.ok (false, ch) := by
  intro tos
  induction tos with
  | nil =>
    intro ch0 _
    exact ⟨ch0, rfl⟩
  | cons t rest ih =>
    intro ch0 hall
    obtain ⟨hf, hs⟩ := hall t (List.mem_cons_self t rest)
    obtain ⟨p1, h1⟩ := Option.isSome_iff_exists.mp hf
    obtain ⟨p2, h2⟩ := Option.isSome_iff_exists.mp hs
    obtain ⟨ch, hch⟩ := ih
      (setChange (setChange ch0 t.firstToken
        (calculatePercentageChange p1.startDayPrice p1.endDayPrice)) t.secondToken
        (calculatePercentageChange p2.startDayPrice p2.endDayPrice))
      (fun tp hto => hall tp (List.mem_cons_of_mem t hto))
    refine ⟨ch, ?_⟩
    simp only [syncOfferTokens, h1, h2, syncTokenPricing_some, Bool.false_eq_true, reduceIte]
    exact hch

lemma syncOfferStep_eq_of_error (api : String → Int → Option CoinPricing)
    (acc : List PortfolioOffer) (offer : PortfolioOffer) (e : String)
    (h : syncOfferTokens api offer.day offer.tokenOffers false [] = Except.error e) :
    syncOfferStep api acc offer = acc := by
  unfold syncOfferStep
  rw [h]

lemma syncOfferStep_eq_of_ok (api : String → Int → Option CoinPricing)
    (acc : List PortfolioOffer) (offer : PortfolioOffer) (ch : List (String × ℚ))
    (h : syncOfferTokens api offer.day offer.tokenOffers false [] = Except.ok (false, ch)) :
    syncOfferStep api acc offer = updateOfferPricing acc offer.id ch := by
  unfold syncOfferStep
  rw [h]

lemma findOffer_syncOfferStep_other (api : String → Int → Option CoinPricing)
    (acc : List PortfolioOffer) (offer : PortfolioOffer) (k : String) (h : offer.id ≠ k) :
    findOffer (syncOfferStep api acc offer) k = findOffer acc k := by
  unfold syncOfferStep
  cases hres : syncOfferTokens api offer.day offer.tokenOffers false [] with
  | error e => rfl
  | ok pr =>
    cases pr with
    | mk flag ch =>
      cases flag with
      | true => rfl
      | false =>
        show findOffer (updateOfferPricing acc offer.id ch) k = findOffer acc k
        unfold updateOfferPricing findOffer
        exact findByKey_updateById_other (fun x : PortfolioOffer => x.id)
          (fun x : PortfolioOffer =>
            { x with offerStatus := OfferStatus.WaitingForCompletion
                     pricingChanges := ch })
          (fun x => rfl) acc offer.id k (Ne.symm h)

lemma findOffer_foldl_syncOfferStep (api : String → Int → Option CoinPricing) :
    ∀ (os : List PortfolioOffer) (acc : List PortfolioOffer) (k : String),
      (∀ f ∈ os, f.id ≠ k) →
      findOffer (os.foldl (syncOfferStep api) acc) k = findOffer acc k := by
  intro os
  induction os with
  | nil => intro acc k _; rfl
  | cons f rest ih =>
    intro acc k hall
    rw [List.foldl_cons]
    rw [ih (syncOfferStep api acc f) k (fun g hg => hall g (List.mem_cons_of_mem f hg))]
    exact findOffer_syncOfferStep_other api acc f k (hall f (List.mem_cons_self f rest))

lemma syncOffersPrices_find_cases (api : String → Int → Option CoinPricing) (currentDay : Int)
    (offers : List PortfolioOffer) (o : PortfolioOffer)
    (hnd : (offers.map (·.id)).Nodup) (ho : o ∈ offers)
    (hst : o.offerStatus = OfferStatus.WaitingForPricing) (hday : o.day ≤ currentDay) :
    (∀ e, syncOfferTokens api o.day o.tokenOffers false [] = Except.error e →
      findOffer (syncOffersPrices api currentDay offers) o.id = some o) ∧
    (∀ ch, syncOfferTokens api o.day o.tokenOffers false [] = Except.ok (false, ch) →
      findOffer (syncOffersPrices api currentDay offers) o.id =
        some { o with offerStatus := OfferStatus.WaitingForCompletion
                      pricingChanges := ch }) := by
  have hof : o ∈ findByOfferStatus offers OfferStatus.WaitingForPricing (some currentDay) := by
    simp [findByOfferStatus, List.mem_filter, ho, hst, hday]
  obtain ⟨l1, l2, hsplit⟩ := List.append_of_mem hof
  have hfnd :
      ((findByOfferStatus offers OfferStatus.WaitingForPricing (some currentDay)).map
        (·.id)).Nodup :=
    List.Nodup.sublist (List.Sublist.map _ (List.filter_sublist offers)) hnd
  rw [hsplit] at hfnd
  simp only [List.map_append, List.map_cons, List.nodup_append, List.nodup_cons] at hfnd
  have hl1 : ∀ f ∈ l1, f.id ≠ o.id := by
    intro f hf hc
    exact hfnd.2.2 (List.mem_map_of_mem _ hf) (by simp [hc])
  have hl2 : ∀ f ∈ l2, f.id ≠ o.id := by
    intro f hf hc
    exact hfnd.2.1.1 (hc ▸ List.mem_map_of_mem _ hf)
  have hfind0 : findOffer offers o.id = some o := by
    unfold findOffer
    exact findByKey_of_mem (fun x => x.id) ho hnd
  have hacc1 : findOffer (l1.foldl (syncOfferStep api) offers) o.id = some o := by
    rw [findOffer_foldl_syncOfferStep api l1 offers o.id hl1]
    exact hfind0
  have hmain :
      findOffer (syncOffersPrices api currentDay offers) o.id =
        findOffer (syncOfferStep api (l1.foldl (syncOfferStep api) offers) o) o.id := by
    unfold syncOffersPrices
    rw [if_neg (by rw [hsplit]; simp), hsplit, List.foldl_append, List.foldl_cons]
    exact findOffer_foldl_syncOfferStep api l2 _ o.id hl2
  refine ⟨fun e he => ?_, fun ch hch => ?_⟩
  · rw [hmain, syncOfferStep_eq_of_error api _ o e he]
    exact hacc1
  · rw [hmain, syncOfferStep_eq_of_ok api _ o ch hch]
    unfold updateOfferPricing findOffer
    rw [findByKey_updateById_self (fun x : PortfolioOffer => x.id)
      (fun x : PortfolioOffer =>
        { x with offerStatus := OfferStatus.WaitingForCompletion
                 pricingChanges := ch })
      (fun x => rfl) _ o.id]
    unfold findOffer at hacc1
    rw [hacc1]
    rfl

/-- C4: when the pricing gateway is absent for any token of a fetched offer, the
whole offer is left untouched by `syncOffersPrices` — status still
`WaitingForPricing`, `pricingChanges` not even partially written — while every
other fetched offer whose tokens all resolve is still transitioned to
`WaitingForCompletion` with its full pricing map in one update. -/
theorem syncOffersPrices_absent_atomic (api : String → Int → Option CoinPricing)
    (currentDay : Int) (offers : List PortfolioOffer) (o : PortfolioOffer)
    (hnd : (offers.map (·.id)).Nodup) (ho : o ∈ offers)
    (hst : o.offerStatus = OfferStatus.WaitingForPricing) (hday : o.day ≤ currentDay)
    (habs : ∃ tp ∈ o.tokenOffers,
      api tp.firstToken o.day = none ∨ api tp.secondToken o.day = none) :
    findOffer (syncOffersPrices api currentDay offers) o.id = some o ∧
    ∀ o2 ∈ offers, o2.id ≠ o.id → o2.offerStatus = OfferStatus.WaitingForPricing →
      o2.day ≤ currentDay →
      (∀ tp ∈ o2.tokenOffers, (api tp.firstToken o2.day).isSome = true ∧
        (api tp.secondToken o2.day).isSome = true) →
      ∃ ch, syncOfferTokens api o2.day o2.tokenOffers false [] = Except.ok (false, ch) ∧
        findOffer (syncOffersPrices api currentDay offers) o2.id =
          some { o2 with offerStatus := OfferStatus.WaitingForCompletion
                         pricingChanges := ch } := by
  constructor
  · exact (syncOffersPrices_find_cases api currentDay offers o hnd ho hst hday).1 nullDerefMsg
      (syncOfferTokens_error_of_absent api o.day o.tokenOffers [] habs)
  · intro o2 ho2 hne hst2 hday2 hall
    obtain ⟨ch, hch⟩ := syncOfferTokens_ok_of_present api o2.day o2.tokenOffers [] hall
    exact ⟨ch, hch,
      (syncOffersPrices_find_cases api currentDay offers o2 hnd ho2 hst2 hday2).2 ch hch⟩

/-- C4 witness: gateway absent on token `X` of `syncOffer1`; `syncOffer2` is
still processed. -/
theorem syncOffersPrices_absent_atomic_witness :
    (([syncOffer1, syncOffer2].map (fun x : PortfolioOffer => x.id)).Nodup ∧
      syncOffer1 ∈ [syncOffer1, syncOffer2] ∧
      syncOffer1.offerStatus = OfferStatus.WaitingForPricing ∧
      syncOffer1.day ≤ 10 ∧
      (∃ tp ∈ syncOffer1.tokenOffers,
        exApi tp.firstToken syncOffer1.day = none ∨
        exApi tp.secondToken syncOffer1.day = none)) ∧
    (findOffer (syncOffersPrices exApi 10 [syncOffer1, syncOffer2]) syncOffer1.id =
        some syncOffer1 ∧
      ∀ o2 ∈ [syncOffer1, syncOffer2], o2.id ≠ syncOffer1.id →
        o2.offerStatus = OfferStatus.WaitingForPricing → o2.day ≤ 10 →
        (∀ tp ∈ o2.tokenOffers, (exApi tp.firstToken o2.day).isSome = true ∧
          (exApi tp.secondToken o2.day).isSome = true) →
        ∃ ch, syncOfferTokens exApi o2.day o2.tokenOffers false [] = Except.ok (false, ch) ∧
          findOffer (syncOffersPrices exApi 10 [syncOffer1, syncOffer2]) o2.id =
            some { o2 with offerStatus := OfferStatus.WaitingForCompletion
                           pricingChanges := ch }) :=
  ⟨⟨by decide, by decide, by decide, by decide, by decide⟩,
   syncOffersPrices_absent_atomic exApi 10 [syncOffer1, syncOffer2] syncOffer1
     (by decide) (by decide) (by decide) (by decide) (by decide)⟩

/-- C8: the per-token callback is not total on the absent case: after setting
the skip flag it dereferences the absent pricing, so it reaches the error
branch; consequently a pair whose first token is absent makes the whole token
loop error out (handled by the per-offer boundary), and no successful run of
the loop ever reports the skip flag set — the skip-flag branch is dead. -/
theorem syncTokenPricing_absent_error (api : String → Int → Option CoinPricing)
    (token : String) (day : Int) (shouldSkipOffer : Bool) (changes : List (String × ℚ))
    (h : api token day = none) :
    syncTokenPricing (api token day) shouldSkipOffer changes token =
      Except.error nullDerefMsg ∧
    (∀ (tok2 : String) (rest : List TokenOffer) (changes0 : List (String × ℚ)),
      syncOfferTokens api day ({ firstToken := token, secondToken := tok2 } :: rest)
        false changes0 = Except.error nullDerefMsg) ∧
    (∀ (tos : List TokenOffer) (changes0 changes1 : List (String × ℚ)) (flag : Bool),
      syncOfferTokens api day tos false changes0 = Except.ok (flag, changes1) →
      flag = false) := by
  refine ⟨by rw [h]; rfl, fun tok2 rest ch0 => ?_,
    fun tos ch0 ch1 flag hres => syncOfferTokens_ok_flag api day tos ch0 flag ch1 hres⟩
  exact syncOfferTokens_error_of_absent api day _ ch0
    ⟨{ firstToken := token, secondToken := tok2 }, List.mem_cons_self _ _, Or.inl h⟩

/-- C8 witness: the gateway `exApi` is absent on token `X`. -/
theorem syncTokenPricing_absent_error_witness :
    exApi "X" 5 = none ∧
    (syncTokenPricing (exApi "X" 5) false [] "X" = Except.error nullDerefMsg ∧
      (∀ (tok2 : String) (rest : List TokenOffer) (changes0 : List (String × ℚ)),
        syncOfferTokens exApi 5 ({ firstToken := "X", secondToken := tok2 } :: rest)
          false changes0 = Except.error nullDerefMsg) ∧
      (∀ (tos : List TokenOffer) (changes0 changes1 : List (String × ℚ)) (flag : Bool),
        syncOfferTokens exApi 5 tos false changes0 = Except.ok (flag, changes1) →
        flag = false)) :=
  ⟨rfl, syncTokenPricing_absent_error exApi "X" 5 false [] rfl⟩


lemma computeEarnedPoints_ok (changes : List (String × ℚ)) :
    ∀ tokens : List String, (∀ t ∈ tokens, (lookupChange changes t).isSome = true) →
      ∀ acc : ℚ, computeEarnedPoints changes tokens acc =
        Except.ok (acc + sumChanges changes tokens) := by
  intro tokens
  induction tokens with
  | nil => intro _ acc; simp [computeEarnedPoints, sumChanges]
  | cons t rest ih =>
    intro hall acc
    obtain ⟨pct, hp⟩ := Option.isSome_iff_exists.mp (hall t (List.mem_cons_self t rest))
    simp only [computeEarnedPoints, hp]
    rw [ih (fun x hx => hall x (List.mem_cons_of_mem t hx)) (acc + pct)]
    simp only [sumChanges, hp, Option.getD_some, Except.ok.injEq]
    ring

lemma computeEarnedPoints_error (changes : List (String × ℚ)) :
    ∀ tokens : List String, (∃ t ∈ tokens, lookupChange changes t = none) →
      ∀ acc : ℚ, computeEarnedPoints changes tokens acc =
        Except.error "Percentage change not found for token." := by
  intro tokens
  induction tokens with
  | nil =>
    rintro ⟨t, ht, -⟩
    simp at ht
  | cons t rest ih =>
    rintro ⟨x, hx, hnone⟩ acc
    cases hl : lookupChange changes t with
    | none => simp [computeEarnedPoints, hl]
    | some pct =>
      simp only [computeEarnedPoints, hl]
      apply ih
      rcases List.mem_cons.mp hx with rfl | hx2
      · rw [hl] at hnone; cases hnone
      · exact ⟨x, hx2, hnone⟩

lemma awardLoop_offers (changes : List (String × ℚ)) :
    ∀ (g : List Portfolio) (st : AppState), (awardLoop changes g st).1.offers = st.offers := by
  intro g
  induction g with
  | nil => intro st; rfl
  | cons p rest ih =>
    intro st
    cases hc : computeEarnedPoints changes p.selectedTokens 0 with
    | error e => simp [awardLoop, hc]
    | ok pts =>
      simp only [awardLoop, hc]
      rw [ih]

lemma awardLoop_findPortfolio_frame (changes : List (String × ℚ)) :
    ∀ (g : List Portfolio) (st : AppState) (pid : String), (∀ m ∈ g, m.id ≠ pid) →
      findPortfolio (awardLoop changes g st).1.portfolios pid =
        findPortfolio st.portfolios pid := by
  intro g
  induction g with
  | nil => intro st pid _; rfl
  | cons p rest ih =>
    intro st pid hall
    cases hc : computeEarnedPoints changes p.selectedTokens 0 with
    | error e => simp [awardLoop, hc]
    | ok pts =>
      simp only [awardLoop, hc]
      rw [ih _ pid (fun m hm => hall m (List.mem_cons_of_mem p hm))]
      show findPortfolio (updatePortfolioAward st.portfolios p.id pts) pid =
        findPortfolio st.portfolios pid
      unfold findPortfolio updatePortfolioAward
      exact findByKey_updateById_other (fun x : Portfolio => x.id)
        (fun q => { q with isAwarded := true, earnedPoints := some pts })
        (fun x => rfl) st.portfolios p.id pid
        (Ne.symm (hall p (List.mem_cons_self p rest)))

lemma awardLoop_findUser_frame (changes : List (String × ℚ)) :
    ∀ (g : List Portfolio) (st : AppState) (uid : String), (∀ m ∈ g, m.userId ≠ uid) →
      findUser (awardLoop changes g st).1.users uid = findUser st.users uid := by
  intro g
  induction g with
  | nil => intro st uid _; rfl
  | cons p rest ih =>
    intro st uid hall
    cases hc : computeEarnedPoints changes p.selectedTokens 0 with
    | error e => simp [awardLoop, hc]
    | ok pts =>
      simp only [awardLoop, hc]
      rw [ih _ uid (fun m hm => hall m (List.mem_cons_of_mem p hm))]
      show findUser (creditUser st.users p.userId pts) uid = findUser st.users uid
      unfold findUser creditUser
      exact findByKey_updateById_other (fun x : User => x.id)
        (fun u => { u with balance := u.balance + pts })
        (fun x => rfl) st.users p.userId uid
        (Ne.symm (hall p (List.mem_cons_self p rest)))

lemma awardLoop_snd_true (changes : List (String × ℚ)) :
    ∀ (g : List Portfolio) (st : AppState),
      (∀ m ∈ g, ∀ t ∈ m.selectedTokens, (lookupChange changes t).isSome = true) →
      (awardLoop changes g st).2 = true := by
  intro g
  induction g with
  | nil => intro st _; rfl
  | cons p rest ih =>
    intro st hall
    have hc := computeEarnedPoints_ok changes p.selectedTokens
      (hall p (List.mem_cons_self p rest)) 0
    simp only [awardLoop, hc]
    exact ih _ (fun m hm => hall m (List.mem_cons_of_mem p hm))

lemma awardLoop_snd_false (changes : List (String × ℚ)) :
    ∀ (g : List Portfolio) (st : AppState),
      (∃ m ∈ g, ∃ t ∈ m.selectedTokens, lookupChange changes t = none) →
      (awardLoop changes g st).2 = false := by
  intro g
  induction g with
  | nil =>
    rintro st ⟨m, hm, -⟩
    simp at hm
  | cons p rest ih =>
    rintro st ⟨m, hm, hmiss⟩
    cases hc : computeEarnedPoints changes p.selectedTokens 0 with
    | error e => simp [awardLoop, hc]
    | ok pts =>
      simp only [awardLoop, hc]
      apply ih
      rcases List.mem_cons.mp hm with rfl | hm2
      · rw [computeEarnedPoints_error changes m.selectedTokens hmiss 0] at hc
        cases hc
      · exact ⟨m, hm2, hmiss⟩

lemma awardLoop_award_find (changes : List (String × ℚ)) :
    ∀ (g : List Portfolio) (st : AppState) (p : Portfolio),
      p ∈ g → (g.map (·.id)).Nodup →
      (∀ m ∈ g, ∀ t ∈ m.selectedTokens, (lookupChange changes t).isSome = true) →
      (∀ m ∈ g, findPortfolio st.portfolios m.id = some m) →
      findPortfolio (awardLoop changes g st).1.portfolios p.id =
        some { p with isAwarded := true
                      earnedPoints := some (sumChanges changes p.selectedTokens) } := by
  intro g
  induction g with
  | nil =>
    intro st p hp
    simp at hp
  | cons m rest ih =>
    intro st p hp hnd hok hstored
    rw [List.map_cons, List.nodup_cons] at hnd
    have hc := computeEarnedPoints_ok changes m.selectedTokens
      (hok m (List.mem_cons_self m rest)) 0
    simp only [awardLoop, hc]
    rcases List.mem_cons.mp hp with rfl | hp2
    · have hrest : ∀ m2 ∈ rest, m2.id ≠ p.id := by
        intro m2 hm2 hc2
        exact hnd.1 (hc2 ▸ List.mem_map_of_mem _ hm2)
      rw [awardLoop_findPortfolio_frame changes rest _ p.id hrest]
      show findPortfolio
        (updatePortfolioAward st.portfolios p.id (0 + sumChanges changes p.selectedTokens))
        p.id = _
      unfold findPortfolio updatePortfolioAward
      rw [findByKey_updateById_self (fun x : Portfolio => x.id)
        (fun q => { q with isAwarded := true
                           earnedPoints := some (0 + sumChanges changes p.selectedTokens) })
        (fun x => rfl) st.portfolios p.id]
      have h0 := hstored p (List.mem_cons_self p rest)
      unfold findPortfolio at h0
      rw [h0]
      simp [zero_add]
    · apply ih _ p hp2 hnd.2 (fun m2 hm2 => hok m2 (List.mem_cons_of_mem m hm2))
      intro m2 hm2
      have hne : m2.id ≠ m.id := by
        intro hc2
        exact hnd.1 (hc2 ▸ List.mem_map_of_mem _ hm2)
      show findPortfolio
        (updatePortfolioAward st.portfolios m.id (0 + sumChanges changes m.selectedTokens))
        m2.id = some m2
      unfold findPortfolio updatePortfolioAward
      rw [findByKey_updateById_other (fun x : Portfolio => x.id)
        (fun q => { q with isAwarded := true
                           earnedPoints := some (0 + sumChanges changes m.selectedTokens) })
        (fun x => rfl) st.portfolios m.id m2.id hne]
      have h0 := hstored m2 (List.mem_cons_of_mem m hm2)
      unfold findPortfolio at h0
      exact h0

lemma awardLoop_credit_find (changes : List (String × ℚ)) :
    ∀ (g : List Portfolio) (st : AppState) (p : Portfolio) (uid : String),
      p ∈ g → (g.map (·.id)).Nodup → p.userId = uid →
      (∀ m ∈ g, m.userId = uid → m = p) →
      (∀ m ∈ g, ∀ t ∈ m.selectedTokens, (lookupChange changes t).isSome = true) →
      findUser (awardLoop changes g st).1.users uid =
        (findUser st.users uid).map
          (fun u => { u with balance := u.balance + sumChanges changes p.selectedTokens }) := by
  intro g
  induction g with
  | nil =>
    intro st p uid hp
    simp at hp
  | cons m rest ih =>
    intro st p uid hp hnd hpuid honly hok
    rw [List.map_cons, List.nodup_cons] at hnd
    have hc := computeEarnedPoints_ok changes m.selectedTokens
      (hok m (List.mem_cons_self m rest)) 0
    simp only [awardLoop, hc]
    rcases List.mem_cons.mp hp with rfl | hp2
    · have hrestuid : ∀ m2 ∈ rest, m2.userId ≠ uid := by
        intro m2 hm2 he
        have hm2p := honly m2 (List.mem_cons_of_mem p hm2) he
        subst hm2p
        exact hnd.1 (List.mem_map_of_mem _ hm2)
      rw [awardLoop_findUser_frame changes rest _ uid hrestuid]
      show findUser
        (creditUser st.users p.userId (0 + sumChanges changes p.selectedTokens)) uid = _
      unfold findUser creditUser
      rw [← hpuid]
      rw [findByKey_updateById_self (fun x : User => x.id)
        (fun u => { u with balance := u.balance + (0 + sumChanges changes p.selectedTokens) })
        (fun x => rfl) st.users p.userId]
      simp [zero_add]
    · have hmne : m.userId ≠ uid := by
        intro he
        have hmp := honly m (List.mem_cons_self m rest) he
        subst hmp
        exact hnd.1 (List.mem_map_of_mem _ hp2)
      rw [ih _ p uid hp2 hnd.2 hpuid
        (fun m2 hm2 he => honly m2 (List.mem_cons_of_mem m hm2) he)
        (fun m2 hm2 => hok m2 (List.mem_cons_of_mem m hm2))]
      have : findUser
          (creditUser st.users m.userId (0 + sumChanges changes m.selectedTokens)) uid =
          findUser st.users uid := by
        unfold findUser creditUser
        exact findByKey_updateById_other (fun x : User => x.id)
          (fun u => { u with balance := u.balance + (0 + sumChanges changes m.selectedTokens) })
          (fun x => rfl) st.users m.userId uid (Ne.symm hmne)
      rw [this]

lemma processOffer_eq_true (st : AppState) (offer : PortfolioOffer) (g : List Portfolio)
    (st2 : AppState) (h : awardLoop offer.pricingChanges g st = (st2, true)) :
    processOffer st offer g = { st2 with offers := markOfferCompleted st2.offers offer.id } := by
  unfold processOffer
  rw [h]

lemma processOffer_eq_false (st : AppState) (offer : PortfolioOffer) (g : List Portfolio)
    (st2 : AppState) (h : awardLoop offer.pricingChanges g st = (st2, false)) :
    processOffer st offer g = st2 := by
  unfold processOffer
  rw [h]

lemma processOffer_findOffer_other (st : AppState) (offer : PortfolioOffer)
    (g : List Portfolio) (k : String) (h : offer.id ≠ k) :
    findOffer (processOffer st offer g).offers k = findOffer st.offers k := by
  rcases hres : awardLoop offer.pricingChanges g st with ⟨st2, b⟩
  have hoff : st2.offers = st.offers := by
    have h2 := awardLoop_offers offer.pricingChanges g st
    rw [hres] at h2
    exact h2
  cases b
  · rw [processOffer_eq_false st offer g st2 hres, hoff]
  · rw [processOffer_eq_true st offer g st2 hres]
    show findOffer (markOfferCompleted st2.offers offer.id) k = findOffer st.offers k
    unfold findOffer markOfferCompleted
    rw [findByKey_updateById_other (fun x : PortfolioOffer => x.id)
      (fun o => { o with offerStatus := OfferStatus.Completed })
      (fun x => rfl) st2.offers offer.id k (Ne.symm h), hoff]

lemma processOffer_findPortfolio_frame (st : AppState) (offer : PortfolioOffer)
    (g : List Portfolio) (pid : String) (h : ∀ m ∈ g, m.id ≠ pid) :
    findPortfolio (processOffer st offer g).portfolios pid =
      findPortfolio st.portfolios pid := by
  rcases hres : awardLoop offer.pricingChanges g st with ⟨st2, b⟩
  have hport : findPortfolio st2.portfolios pid = findPortfolio st.portfolios pid := by
    have h2 := awardLoop_findPortfolio_frame offer.pricingChanges g st pid h
    rw [hres] at h2
    exact h2
  cases b
  · rw [processOffer_eq_false st offer g st2 hres]
    exact hport
  · rw [processOffer_eq_true st offer g st2 hres]
    exact hport

lemma processOffer_findUser_frame (st : AppState) (offer : PortfolioOffer)
    (g : List Portfolio) (uid : String) (h : ∀ m ∈ g, m.userId ≠ uid) :
    findUser (processOffer st offer g).users uid = findUser st.users uid := by
  rcases hres : awardLoop offer.pricingChanges g st with ⟨st2, b⟩
  have huser : findUser st2.users uid = findUser st.users uid := by
    have h2 := awardLoop_findUser_frame offer.pricingChanges g st uid h
    rw [hres] at h2
    exact h2
  cases b
  · rw [processOffer_eq_false st offer g st2 hres]
    exact huser
  · rw [processOffer_eq_true st offer g st2 hres]
    exact huser

lemma foldl_awardStep_findOffer (snap : List Portfolio) :
    ∀ (os : List PortfolioOffer) (acc : AppState) (k : String),
      (∀ f ∈ os, f.id ≠ k) →
      findOffer ((os.foldl (awardStep snap) acc)).offers k = findOffer acc.offers k := by
  intro os
  induction os with
  | nil => intro acc k _; rfl
  | cons f rest ih =>
    intro acc k hall
    rw [List.foldl_cons,
      ih (awardStep snap acc f) k (fun g2 hg => hall g2 (List.mem_cons_of_mem f hg))]
    exact processOffer_findOffer_other acc f _ k (hall f (List.mem_cons_self f rest))

lemma foldl_awardStep_findPortfolio (snap : List Portfolio) :
    ∀ (os : List PortfolioOffer) (acc : AppState) (pid : String),
      (∀ f ∈ os, ∀ m ∈ groupFor snap f.id, m.id ≠ pid) →
      findPortfolio ((os.foldl (awardStep snap) acc)).portfolios pid =
        findPortfolio acc.portfolios pid := by
  intro os
  induction os with
  | nil => intro acc pid _; rfl
  | cons f rest ih =>
    intro acc pid hall
    rw [List.foldl_cons,
      ih (awardStep snap acc f) pid (fun g2 hg => hall g2 (List.mem_cons_of_mem f hg))]
    exact processOffer_findPortfolio_frame acc f _ pid (hall f (List.mem_cons_self f rest))

lemma foldl_awardStep_findUser (snap : List Portfolio) :
    ∀ (os : List PortfolioOffer) (acc : AppState) (uid : String),
      (∀ f ∈ os, ∀ m ∈ groupFor snap f.id, m.userId ≠ uid) →
      findUser ((os.foldl (awardStep snap) acc)).users uid = findUser acc.users uid := by
  intro os
  induction os with
  | nil => intro acc uid _; rfl
  | cons f rest ih =>
    intro acc uid hall
    rw [List.foldl_cons,
      ih (awardStep snap acc f) uid (fun g2 hg => hall g2 (List.mem_cons_of_mem f hg))]
    exact processOffer_findUser_frame acc f _ uid (hall f (List.mem_cons_self f rest))

lemma mem_listOffersWaitingForCompletion (offers : List PortfolioOffer) (o : PortfolioOffer) :
    o ∈ listOffersWaitingForCompletion offers ↔
      o ∈ offers ∧ o.offerStatus = OfferStatus.WaitingForCompletion := by
  simp [listOffersWaitingForCompletion, findByOfferStatus, List.mem_filter]

lemma mem_groupFor_snapshot (st : AppState) (offerIds : List String) (oid : String)
    (hin : oid ∈ offerIds) (q : Portfolio) :
    q ∈ groupFor (awardSnapshot st offerIds) oid ↔
      q ∈ st.portfolios ∧ q.isAwarded = false ∧ q.offerId = oid := by
  simp [groupFor, awardSnapshot, portfolioRepoFind, List.mem_filter]
  intro _
  constructor
  · rintro ⟨hoid, _, hbf⟩
    exact ⟨hbf, hoid⟩
  · rintro ⟨hbf, hoid⟩
    exact ⟨hoid, hoid ▸ hin, hbf⟩

lemma groupFor_sublist (st : AppState) (offerIds : List String) (oid : String) :
    List.Sublist (groupFor (awardSnapshot st offerIds) oid) st.portfolios := by
  unfold groupFor awardSnapshot portfolioRepoFind
  exact List.Sublist.trans (List.filter_sublist _) (List.filter_sublist _)

lemma awardPortfolios_split (st : AppState) (o : PortfolioOffer)
    (hnd : (st.offers.map (·.id)).Nodup)
    (ho : o ∈ st.offers) (host : o.offerStatus = OfferStatus.WaitingForCompletion) :
    ∃ l1 l2, listOffersWaitingForCompletion st.offers = l1 ++ o :: l2 ∧
      (∀ f ∈ l1, f.id ≠ o.id) ∧ (∀ f ∈ l2, f.id ≠ o.id) := by
  have hof : o ∈ listOffersWaitingForCompletion st.offers :=
    (mem_listOffersWaitingForCompletion st.offers o).mpr ⟨ho, host⟩
  obtain ⟨l1, l2, hsplit⟩ := List.append_of_mem hof
  have hfnd : ((listOffersWaitingForCompletion st.offers).map (·.id)).Nodup :=
    List.Nodup.sublist (List.Sublist.map _ (List.filter_sublist st.offers)) hnd
  rw [hsplit] at hfnd
  simp only [List.map_append, List.map_cons, List.nodup_append, List.nodup_cons] at hfnd
  refine ⟨l1, l2, hsplit, ?_, ?_⟩
  · intro f hf hc
    exact hfnd.2.2 (List.mem_map_of_mem _ hf) (by simp [hc])
  · intro f hf hc
    exact hfnd.2.1.1 (hc ▸ List.mem_map_of_mem _ hf)

lemma awardPortfolios_eq_foldl (st : AppState) :
    awardPortfolios st =
      (listOffersWaitingForCompletion st.offers).foldl
        (awardStep
          (awardSnapshot st ((listOffersWaitingForCompletion st.offers).map (·.id)))) st := rfl

lemma awardStep_def (snap : List Portfolio) (acc : AppState) (offer : PortfolioOffer) :
    awardStep snap acc offer = processOffer acc offer (groupFor snap offer.id) := rfl

lemma awardPortfolios_completes_offer (st : AppState) (o : PortfolioOffer)
    (hnd : (st.offers.map (·.id)).Nodup)
    (ho : o ∈ st.offers) (host : o.offerStatus = OfferStatus.WaitingForCompletion)
    (hgok : ∀ q ∈ st.portfolios, q.isAwarded = false → q.offerId = o.id →
      ∀ t ∈ q.selectedTokens, (lookupChange o.pricingChanges t).isSome = true) :
    findOffer (awardPortfolios st).offers o.id =
      some { o with offerStatus := OfferStatus.Completed } := by
  obtain ⟨l1, l2, hsplit, hl1, hl2⟩ := awardPortfolios_split st o hnd ho host
  rw [awardPortfolios_eq_foldl]
  set W := listOffersWaitingForCompletion st.offers with hW
  set snap := awardSnapshot st (W.map (·.id)) with hsnap
  have hin : o.id ∈ W.map (·.id) :=
    List.mem_map_of_mem _ ((mem_listOffersWaitingForCompletion st.offers o).mpr ⟨ho, host⟩)
  rw [hsplit, List.foldl_append, List.foldl_cons]
  rw [foldl_awardStep_findOffer snap l2 _ o.id hl2]
  set st1 := l1.foldl (awardStep snap) st with hst1
  rw [awardStep_def]
  have hgood : ∀ m ∈ groupFor snap o.id,
      ∀ t ∈ m.selectedTokens, (lookupChange o.pricingChanges t).isSome = true := by
    intro m hm
    obtain ⟨hmem, hbf, hoid⟩ := (mem_groupFor_snapshot st (W.map (·.id)) o.id hin m).mp hm
    exact hgok m hmem hbf hoid
  have hsnd := awardLoop_snd_true o.pricingChanges (groupFor snap o.id) st1 hgood
  rcases hres : awardLoop o.pricingChanges (groupFor snap o.id) st1 with ⟨st2, b⟩
  rw [hres] at hsnd
  cases b with
  | false => cases hsnd
  | true =>
    rw [processOffer_eq_true st1 o _ st2 hres]
    show findOffer (markOfferCompleted st2.offers o.id) o.id = _
    unfold findOffer markOfferCompleted
    rw [findByKey_updateById_self (fun x : PortfolioOffer => x.id)
      (fun x => { x with offerStatus := OfferStatus.Completed })
      (fun x => rfl) st2.offers o.id]
    have hoff2 : st2.offers = st1.offers := by
      have h2 := awardLoop_offers o.pricingChanges (groupFor snap o.id) st1
      rw [hres] at h2
      exact h2
    have hoff1 : findOffer st1.offers o.id = findOffer st.offers o.id := by
      rw [hst1]
      exact foldl_awardStep_findOffer snap l1 st o.id hl1
    have hfind0 : findOffer st.offers o.id = some o := by
      unfold findOffer
      exact findByKey_of_mem (fun x => x.id) ho hnd
    unfold findOffer at hoff1 hfind0
    rw [hoff2, hoff1, hfind0]
    rfl

lemma awardPortfolios_offer_unchanged (st : AppState) (o : PortfolioOffer)
    (hnd : (st.offers.map (·.id)).Nodup)
    (ho : o ∈ st.offers) (host : o.offerStatus = OfferStatus.WaitingForCompletion)
    (hfail : ∃ q ∈ st.portfolios, q.isAwarded = false ∧ q.offerId = o.id ∧
      ∃ t ∈ q.selectedTokens, lookupChange o.pricingChanges t = none) :
    findOffer (awardPortfolios st).offers o.id = some o := by
  obtain ⟨l1, l2, hsplit, hl1, hl2⟩ := awardPortfolios_split st o hnd ho host
  rw [awardPortfolios_eq_foldl]
  set W := listOffersWaitingForCompletion st.offers with hW
  set snap := awardSnapshot st (W.map (·.id)) with hsnap
  have hin : o.id ∈ W.map (·.id) :=
    List.mem_map_of_mem _ ((mem_listOffersWaitingForCompletion st.offers o).mpr ⟨ho, host⟩)
  rw [hsplit, List.foldl_append, List.foldl_cons]
  rw [foldl_awardStep_findOffer snap l2 _ o.id hl2]
  set st1 := l1.foldl (awardStep snap) st with hst1
  rw [awardStep_def]
  obtain ⟨q, hq, hbf, hoid, hmiss⟩ := hfail
  have hqg : q ∈ groupFor snap o.id :=
    (mem_groupFor_snapshot st (W.map (·.id)) o.id hin q).mpr ⟨hq, hbf, hoid⟩
  have hsnd := awardLoop_snd_false o.pricingChanges (groupFor snap o.id) st1 ⟨q, hqg, hmiss⟩
  rcases hres : awardLoop o.pricingChanges (groupFor snap o.id) st1 with ⟨st2, b⟩
  rw [hres] at hsnd
  cases b with
  | true => cases hsnd
  | false =>
    rw [processOffer_eq_false st1 o _ st2 hres]
    have hoff2 : st2.offers = st1.offers := by
      have h2 := awardLoop_offers o.pricingChanges (groupFor snap o.id) st1
      rw [hres] at h2
      exact h2
    have hoff1 : findOffer st1.offers o.id = findOffer st.offers o.id := by
      rw [hst1]
      exact foldl_awardStep_findOffer snap l1 st o.id hl1
    have hfind0 : findOffer st.offers o.id = some o := by
      unfold findOffer
      exact findByKey_of_mem (fun x => x.id) ho hnd
    unfold findOffer at hoff1 hfind0 ⊢
    rw [hoff2, hoff1, hfind0]


lemma awardPortfolios_awards (st : AppState) (o : PortfolioOffer) (p : Portfolio) (u : User)
    (hnd : (st.offers.map (·.id)).Nodup)
    (hndp : (st.portfolios.map (·.id)).Nodup)
    (hndu : (st.users.map (·.id)).Nodup)
    (ho : o ∈ st.offers) (host : o.offerStatus = OfferStatus.WaitingForCompletion)
    (hp : p ∈ st.portfolios) (hpa : p.isAwarded = false) (hpo : p.offerId = o.id)
    (hgok : ∀ q ∈ st.portfolios, q.isAwarded = false → q.offerId = o.id →
      ∀ t ∈ q.selectedTokens, (lookupChange o.pricingChanges t).isSome = true)
    (hu : u ∈ st.users) (hup : u.id = p.userId)
    (huniq : ∀ q ∈ st.portfolios, q.isAwarded = false → q.userId = p.userId →
      (∃ o2 ∈ st.offers, o2.id = q.offerId ∧
        o2.offerStatus = OfferStatus.WaitingForCompletion) → q = p) :
    findPortfolio (awardPortfolios st).portfolios p.id =
      some { p with isAwarded := true
                    earnedPoints := some (sumChanges o.pricingChanges p.selectedTokens) } ∧
    findUser (awardPortfolios st).users u.id =
      some { u with balance := u.balance + sumChanges o.pricingChanges p.selectedTokens } := by
  obtain ⟨l1, l2, hsplit, hl1, hl2⟩ := awardPortfolios_split st o hnd ho host
  rw [awardPortfolios_eq_foldl]
  set W := listOffersWaitingForCompletion st.offers with hW
  set snap := awardSnapshot st (W.map (·.id)) with hsnap
  have hoW : o ∈ W := (mem_listOffersWaitingForCompletion st.offers o).mpr ⟨ho, host⟩
  have hin : o.id ∈ W.map (·.id) := List.mem_map_of_mem _ hoW
  have hWmem : ∀ f ∈ W, f ∈ st.offers ∧ f.offerStatus = OfferStatus.WaitingForCompletion :=
    fun f hf => (mem_listOffersWaitingForCompletion st.offers f).mp hf
  have hmemgroup : ∀ f ∈ W, ∀ m ∈ groupFor snap f.id,
      m ∈ st.portfolios ∧ m.isAwarded = false ∧ m.offerId = f.id := by
    intro f hf m hm
    exact (mem_groupFor_snapshot st (W.map (·.id)) f.id (List.mem_map_of_mem _ hf) m).mp hm
  have hframe : ∀ f, (f ∈ l1 ∨ f ∈ l2) → ∀ m ∈ groupFor snap f.id,
      m.id ≠ p.id ∧ m.userId ≠ u.id := by
    intro f hf m hm
    have hfW : f ∈ W := by
      rw [hsplit]
      rcases hf with h | h
      · exact List.mem_append_left _ h
      · exact List.mem_append_right _ (List.mem_cons_of_mem o h)
    obtain ⟨hfo, hfst⟩ := hWmem f hfW
    have hfne : f.id ≠ o.id := by
      rcases hf with h | h
      · exact hl1 f h
      · exact hl2 f h
    obtain ⟨hmmem, hmbf, hmoid⟩ := hmemgroup f hfW m hm
    constructor
    · intro hc
      have hmp : m = p := key_eq_of_mem (fun x : Portfolio => x.id) hndp hmmem hp hc
      rw [hmp] at hmoid
      exact hfne (hpo ▸ hmoid.symm)
    · intro hc
      have hmp : m = p := huniq m hmmem hmbf (hc.trans hup)
        ⟨f, hfo, hmoid.symm, hfst⟩
      rw [hmp] at hmoid
      exact hfne (hpo ▸ hmoid.symm)
  have hgin : p ∈ groupFor snap o.id :=
    (mem_groupFor_snapshot st (W.map (·.id)) o.id hin p).mpr ⟨hp, hpa, hpo⟩
  have hgnd : ((groupFor snap o.id).map (·.id)).Nodup :=
    List.Nodup.sublist (List.Sublist.map _ (groupFor_sublist st (W.map (·.id)) o.id)) hndp
  have hgood : ∀ m ∈ groupFor snap o.id,
      ∀ t ∈ m.selectedTokens, (lookupChange o.pricingChanges t).isSome = true := by
    intro m hm
    obtain ⟨hmmem, hmbf, hmoid⟩ := hmemgroup o hoW m hm
    exact hgok m hmmem hmbf hmoid
  have honly : ∀ m ∈ groupFor snap o.id, m.userId = u.id → m = p := by
    intro m hm he
    obtain ⟨hmmem, hmbf, hmoid⟩ := hmemgroup o hoW m hm
    exact huniq m hmmem hmbf (he.trans hup) ⟨o, ho, hmoid.symm, host⟩
  rw [hsplit, List.foldl_append, List.foldl_cons]
  set st1 := l1.foldl (awardStep snap) st with hst1
  have hstored : ∀ m ∈ groupFor snap o.id, findPortfolio st1.portfolios m.id = some m := by
    intro m hm
    obtain ⟨hmmem, hmbf, hmoid⟩ := hmemgroup o hoW m hm
    have hfr : findPortfolio st1.portfolios m.id = findPortfolio st.portfolios m.id := by
      rw [hst1]
      apply foldl_awardStep_findPortfolio snap l1 st m.id
      intro f hf m2 hm2
      have hfW : f ∈ W := by
        rw [hsplit]
        exact List.mem_append_left _ hf
      obtain ⟨hm2mem, hm2bf, hm2oid⟩ := hmemgroup f hfW m2 hm2
      intro hc
      have hm2m : m2 = m := key_eq_of_mem (fun x : Portfolio => x.id) hndp hm2mem hmmem hc
      rw [hm2m] at hm2oid
      exact hl1 f hf (hmoid ▸ hm2oid.symm)
    rw [hfr]
    unfold findPortfolio
    exact findByKey_of_mem (fun x : Portfolio => x.id) hmmem hndp
  constructor
  · rw [foldl_awardStep_findPortfolio snap l2 _ p.id
      (fun f hf m hm => (hframe f (Or.inr hf) m hm).1)]
    rw [awardStep_def]
    rcases hres : awardLoop o.pricingChanges (groupFor snap o.id) st1 with ⟨st2, b⟩
    have hloopp := awardLoop_award_find o.pricingChanges (groupFor snap o.id) st1 p
      hgin hgnd hgood hstored
    rw [hres] at hloopp
    cases b
    · rw [processOffer_eq_false st1 o _ st2 hres]
      exact hloopp
    · rw [processOffer_eq_true st1 o _ st2 hres]
      exact hloopp
  · rw [foldl_awardStep_findUser snap l2 _ u.id
      (fun f hf m hm => (hframe f (Or.inr hf) m hm).2)]
    rw [awardStep_def]
    rcases hres : awardLoop o.pricingChanges (groupFor snap o.id) st1 with ⟨st2, b⟩
    have hloopu := awardLoop_credit_find o.pricingChanges (groupFor snap o.id) st1 p u.id
      hgin hgnd hup.symm honly hgood
    rw [hres] at hloopu
    have hu1 : findUser st1.users u.id = findUser st.users u.id := by
      rw [hst1]
      apply foldl_awardStep_findUser snap l1 st u.id
      intro f hf m hm
      exact (hframe f (Or.inl hf) m hm).2
    have hu0 : findUser st.users u.id = some u := by
      unfold findUser
      exact findByKey_of_mem (fun x : User => x.id) hu hndu
    cases b
    · rw [processOffer_eq_false st1 o _ st2 hres]
      rw [hloopu, hu1, hu0]
      rfl
    · rw [processOffer_eq_true st1 o _ st2 hres]
      show findUser st2.users u.id = _
      rw [hloopu, hu1, hu0]
      rfl


lemma forall₂_self {α : Type} {R : α → α → Prop} (h : ∀ a, R a a) :
    ∀ l : List α, List.Forall₂ R l l := by
  intro l
  induction l with
  | nil => exact List.Forall₂.nil
  | cons a rest ih => exact List.Forall₂.cons (h a) ih

lemma forall₂_trans {α : Type} {R : α → α → Prop}
    (htrans : ∀ a b c, R a b → R b c → R a c) :
    ∀ {l1 l2 l3 : List α}, List.Forall₂ R l1 l2 → List.Forall₂ R l2 l3 →
      List.Forall₂ R l1 l3 := by
  intro l1 l2 l3 h12
  induction h12 generalizing l3 with
  | nil =>
    intro h23
    cases h23
    exact List.Forall₂.nil
  | cons hr hrest ih =>
    intro h23
    cases h23 with
    | cons hr2 hrest2 => exact List.Forall₂.cons (htrans _ _ _ hr hr2) (ih hrest2)

lemma forall₂_map_self {α : Type} {R : α → α → Prop} (f : α → α) (h : ∀ a, R a (f a)) :
    ∀ l : List α, List.Forall₂ R l (l.map f) := by
  intro l
  induction l with
  | nil => exact List.Forall₂.nil
  | cons a rest ih => exact List.Forall₂.cons (h a) ih

lemma forall₂_mem_right {α : Type} {R : α → α → Prop} :
    ∀ {l l2 : List α}, List.Forall₂ R l l2 → ∀ {b}, b ∈ l2 → ∃ a ∈ l, R a b := by
  intro l l2 h
  induction h with
  | nil =>
    intro b hb
    simp at hb
  | cons hr _ ih =>
    intro b hb
    rcases List.mem_cons.mp hb with rfl | hb2
    · exact ⟨_, List.mem_cons_self _ _, hr⟩
    · rcases ih hb2 with ⟨a, ha, har⟩
      exact ⟨a, List.mem_cons_of_mem _ ha, har⟩

lemma forall₂_map_eq {α β : Type} {R : α → α → Prop} (f : α → β)
    (h : ∀ a b, R a b → f b = f a) :
    ∀ {l l2 : List α}, List.Forall₂ R l l2 → l2.map f = l.map f := by
  intro l l2 hrel
  induction hrel with
  | nil => rfl
  | cons hr _ ih => simp [ih, h _ _ hr]

lemma portfolioEvolved_refl (q : Portfolio) : PortfolioEvolved q q :=
  ⟨rfl, rfl, rfl, rfl, fun _ => rfl⟩

lemma portfolioEvolved_trans (a b c : Portfolio)
    (h1 : PortfolioEvolved a b) (h2 : PortfolioEvolved b c) : PortfolioEvolved a c := by
  obtain ⟨i1, u1, o1, s1, f1⟩ := h1
  obtain ⟨i2, u2, o2, s2, f2⟩ := h2
  refine ⟨i2.trans i1, u2.trans u1, o2.trans o1, s2.trans s1, fun hc => ?_⟩
  have hcb : c = b := f2 hc
  rw [hcb]
  exact f1 (hcb ▸ hc)

lemma offerEvolved_refl (o : PortfolioOffer) : OfferEvolved o o := ⟨rfl, fun _ => rfl⟩

lemma offerEvolved_trans (a b c : PortfolioOffer)
    (h1 : OfferEvolved a b) (h2 : OfferEvolved b c) : OfferEvolved a c := by
  obtain ⟨i1, f1⟩ := h1
  obtain ⟨i2, f2⟩ := h2
  refine ⟨i2.trans i1, fun hc => ?_⟩
  have hcb : c = b := f2 hc
  rw [hcb]
  exact f1 (hcb ▸ hc)

lemma userEvolved_refl (u : User) : UserEvolved u u := rfl

lemma stateEvolved_refl (st : AppState) : StateEvolved st st :=
  ⟨forall₂_self offerEvolved_refl _, forall₂_self portfolioEvolved_refl _,
   forall₂_self userEvolved_refl _⟩

lemma stateEvolved_trans (a b c : AppState)
    (h1 : StateEvolved a b) (h2 : StateEvolved b c) : StateEvolved a c :=
  ⟨forall₂_trans offerEvolved_trans h1.1 h2.1,
   forall₂_trans portfolioEvolved_trans h1.2.1 h2.2.1,
   forall₂_trans (fun _ _ _ r1 r2 => r2.trans r1) h1.2.2 h2.2.2⟩

lemma updatePortfolioAward_evolved (ps : List Portfolio) (pid : String) (pts : ℚ) :
    List.Forall₂ PortfolioEvolved ps (updatePortfolioAward ps pid pts) := by
  apply forall₂_map_self
  intro a
  by_cases h : a.id = pid
  · rw [if_pos h]
    exact ⟨rfl, rfl, rfl, rfl, fun hc => by simp at hc⟩
  · rw [if_neg h]
    exact portfolioEvolved_refl a

lemma creditUser_evolved (us : List User) (uid : String) (pts : ℚ) :
    List.Forall₂ UserEvolved us (creditUser us uid pts) := by
  apply forall₂_map_self
  intro a
  by_cases h : a.id = uid
  · simp [UserEvolved, h]
  · simp [UserEvolved, h]

lemma markOfferCompleted_evolved (offers : List PortfolioOffer) (oid : String) :
    List.Forall₂ OfferEvolved offers (markOfferCompleted offers oid) := by
  apply forall₂_map_self
  intro a
  by_cases h : a.id = oid
  · rw [if_pos h]
    exact ⟨rfl, fun hc => by simp at hc⟩
  · rw [if_neg h]
    exact offerEvolved_refl a

lemma awardLoop_evolved (changes : List (String × ℚ)) :
    ∀ (g : List Portfolio) (st : AppState), StateEvolved st (awardLoop changes g st).1 := by
  intro g
  induction g with
  | nil => intro st; exact stateEvolved_refl st
  | cons m rest ih =>
    intro st
    cases hc : computeEarnedPoints changes m.selectedTokens 0 with
    | error e =>
      simp only [awardLoop, hc]
      exact stateEvolved_refl st
    | ok pts =>
      simp only [awardLoop, hc]
      refine stateEvolved_trans st _ _ ?_ (ih _)
      exact ⟨forall₂_self offerEvolved_refl _,
        updatePortfolioAward_evolved st.portfolios m.id pts,
        creditUser_evolved st.users m.userId pts⟩

lemma processOffer_evolved (st : AppState) (offer : PortfolioOffer) (g : List Portfolio) :
    StateEvolved st (processOffer st offer g) := by
  rcases hres : awardLoop offer.pricingChanges g st with ⟨st2, b⟩
  have hev : StateEvolved st st2 := by
    have h2 := awardLoop_evolved offer.pricingChanges g st
    rw [hres] at h2
    exact h2
  cases b
  · rw [processOffer_eq_false st offer g st2 hres]
    exact hev
  · rw [processOffer_eq_true st offer g st2 hres]
    refine stateEvolved_trans st st2 _ hev ?_
    exact ⟨markOfferCompleted_evolved st2.offers offer.id,
      forall₂_self portfolioEvolved_refl _, forall₂_self userEvolved_refl _⟩

lemma foldl_awardStep_evolved (snap : List Portfolio) :
    ∀ (os : List PortfolioOffer) (acc : AppState),
      StateEvolved acc (os.foldl (awardStep snap) acc) := by
  intro os
  induction os with
  | nil => intro acc; exact stateEvolved_refl acc
  | cons f rest ih =>
    intro acc
    rw [List.foldl_cons]
    exact stateEvolved_trans acc _ _ (processOffer_evolved acc f _) (ih _)

lemma awardPortfolios_evolved (st : AppState) : StateEvolved st (awardPortfolios st) := by
  rw [awardPortfolios_eq_foldl]
  exact foldl_awardStep_evolved _ _ st

lemma awardPortfolios_offer_ids (st : AppState) :
    (awardPortfolios st).offers.map (·.id) = st.offers.map (·.id) :=
  forall₂_map_eq (fun x : PortfolioOffer => x.id) (fun _ _ r => r.1)
    (awardPortfolios_evolved st).1

lemma awardPortfolios_portfolio_ids (st : AppState) :
    (awardPortfolios st).portfolios.map (·.id) = st.portfolios.map (·.id) :=
  forall₂_map_eq (fun x : Portfolio => x.id) (fun _ _ r => r.1)
    (awardPortfolios_evolved st).2.1

lemma awardPortfolios_untouched_portfolio (st : AppState) (pid : String)
    (hcond : ∀ f ∈ listOffersWaitingForCompletion st.offers,
      ∀ m ∈ groupFor
        (awardSnapshot st ((listOffersWaitingForCompletion st.offers).map (·.id))) f.id,
      m.id ≠ pid) :
    findPortfolio (awardPortfolios st).portfolios pid = findPortfolio st.portfolios pid := by
  rw [awardPortfolios_eq_foldl]
  exact foldl_awardStep_findPortfolio _ _ st pid hcond

lemma awardPortfolios_untouched_user (st : AppState) (uid : String)
    (hcond : ∀ f ∈ listOffersWaitingForCompletion st.offers,
      ∀ m ∈ groupFor
        (awardSnapshot st ((listOffersWaitingForCompletion st.offers).map (·.id))) f.id,
      m.userId ≠ uid) :
    findUser (awardPortfolios st).users uid = findUser st.users uid := by
  rw [awardPortfolios_eq_foldl]
  exact foldl_awardStep_findUser _ _ st uid hcond


/-- C2 (amended: conditioned on every non-awarded portfolio of the offer having
all its selected tokens priced — a failing sibling portfolio aborts the whole
offer's loop — and, for the balance statement, on the portfolio being its
user's only pending one among offers awaiting completion): `awardPortfolios`
sets `earnedPoints` to the sum of the offer's pricing changes over the selected
tokens, flips `isAwarded`, credits the user's balance by exactly that amount in
the same transactional state update, and a second run changes neither the
portfolio nor the balance, since awarded portfolios are excluded from the
non-awarded query. -/
theorem awardPortfolios_award_correct (st : AppState) (o : PortfolioOffer) (p : Portfolio)
    (u : User)
    (hnd : (st.offers.map (·.id)).Nodup)
    (hndp : (st.portfolios.map (·.id)).Nodup)
    (hndu : (st.users.map (·.id)).Nodup)
    (ho : o ∈ st.offers) (host : o.offerStatus = OfferStatus.WaitingForCompletion)
    (hp : p ∈ st.portfolios) (hpa : p.isAwarded = false) (hpo : p.offerId = o.id)
    (hgok : ∀ q ∈ st.portfolios, q.isAwarded = false → q.offerId = o.id →
      ∀ t ∈ q.selectedTokens, (lookupChange o.pricingChanges t).isSome = true)
    (hu : u ∈ st.users) (hup : u.id = p.userId)
    (huniq : ∀ q ∈ st.portfolios, q.isAwarded = false → q.userId = p.userId →
      (∃ o2 ∈ st.offers, o2.id = q.offerId ∧
        o2.offerStatus = OfferStatus.WaitingForCompletion) → q = p) :
    findPortfolio (awardPortfolios st).portfolios p.id =
      some { p with isAwarded := true
                    earnedPoints := some (sumChanges o.pricingChanges p.selectedTokens) } ∧
    findUser (awardPortfolios st).users u.id =
      some { u with balance := u.balance + sumChanges o.pricingChanges p.selectedTokens } ∧
    findPortfolio (awardPortfolios (awardPortfolios st)).portfolios p.id =
      findPortfolio (awardPortfolios st).portfolios p.id ∧
    findUser (awardPortfolios (awardPortfolios st)).users u.id =
      findUser (awardPortfolios st).users u.id := by
  obtain ⟨hP, hU⟩ := awardPortfolios_awards st o p u hnd hndp hndu ho host hp hpa hpo
    hgok hu hup huniq
  set st2 := awardPortfolios st with hst2
  have hndp2 : (st2.portfolios.map (·.id)).Nodup := by
    rw [hst2, awardPortfolios_portfolio_ids]
    exact hndp
  have hev : StateEvolved st st2 := awardPortfolios_evolved st
  have hPs := findByKey_some (show findByKey (fun x : Portfolio => x.id) st2.portfolios p.id
    = some { p with isAwarded := true
                    earnedPoints := some (sumChanges o.pricingChanges p.selectedTokens) }
    from hP)
  have hnot : ∀ m ∈ st2.portfolios, m.isAwarded = false → m.id ≠ p.id := by
    intro m hm hbf hc
    have hmeq : m = { p with isAwarded := true, earnedPoints := some (sumChanges o.pricingChanges p.selectedTokens) } :=
      key_eq_of_mem (fun x : Portfolio => x.id) hndp2 hm hPs.2 (hc.trans hPs.1.symm)
    rw [hmeq] at hbf
    cases hbf
  have hcond : ∀ f ∈ listOffersWaitingForCompletion st2.offers,
      ∀ m ∈ groupFor
        (awardSnapshot st2 ((listOffersWaitingForCompletion st2.offers).map (·.id))) f.id,
      m.id ≠ p.id ∧ m.userId ≠ u.id := by
    intro f hf m hm
    obtain ⟨hfo2, hfst2⟩ := (mem_listOffersWaitingForCompletion st2.offers f).mp hf
    obtain ⟨hm2, hmbf, hmoid⟩ :=
      (mem_groupFor_snapshot st2 _ f.id (List.mem_map_of_mem _ hf) m).mp hm
    have hmid : m.id ≠ p.id := hnot m hm2 hmbf
    refine ⟨hmid, fun he => ?_⟩
    obtain ⟨q, hq, hrel⟩ := forall₂_mem_right hev.2.1 hm2
    have hmq : m = q := hrel.2.2.2.2 hmbf
    obtain ⟨f0, hf0, hrelf⟩ := forall₂_mem_right hev.1 hfo2
    have hff0 : f = f0 := hrelf.2 hfst2
    have hmp : m = p := by
      refine huniq m ?_ hmbf (he.trans hup) ⟨f0, hf0, ?_, ?_⟩
      · rw [hmq]; exact hq
      · rw [← hff0]; exact hmoid.symm
      · rw [← hff0]; exact hfst2
    exact hmid (by rw [hmp])
  refine ⟨hP, hU, ?_, ?_⟩
  · exact awardPortfolios_untouched_portfolio st2 p.id (fun f hf m hm => (hcond f hf m hm).1)
  · exact awardPortfolios_untouched_user st2 u.id (fun f hf m hm => (hcond f hf m hm).2)

/-- C2 counterexample: in `cxState` the valid portfolio `p2` of the
`WaitingForCompletion` offer has all its selected tokens priced, yet
`awardPortfolios` leaves it non-awarded with no balance credit, because the
sibling portfolio `p1` listed before it fails and aborts the offer's loop. -/
theorem awardPortfolios_sibling_failure_blocks_award :
    cxGoodPortfolio.isAwarded = false ∧ cxGoodPortfolio.offerId = cxOffer.id ∧
    cxOffer.offerStatus = OfferStatus.WaitingForCompletion ∧
    (∀ t ∈ cxGoodPortfolio.selectedTokens,
      (lookupChange cxOffer.pricingChanges t).isSome = true) ∧
    findPortfolio (awardPortfolios cxState).portfolios "p2" = some cxGoodPortfolio ∧
    findUser (awardPortfolios cxState).users "u2" = some { id := "u2", balance := 0 } := by
  decide

/-- C3 (amended: the try-catch is per-offer, not per-portfolio, so a portfolio
failure skips the completion write): when every non-awarded portfolio of the
offer scores without error, the offer is marked `Completed` and disappears from
`listOffersWaitingForCompletion`; when some portfolio's scoring throws, the
offer record is left untouched, still `WaitingForCompletion`. -/
theorem awardPortfolios_offer_completion (st : AppState) (o : PortfolioOffer)
    (hnd : (st.offers.map (·.id)).Nodup)
    (ho : o ∈ st.offers) (host : o.offerStatus = OfferStatus.WaitingForCompletion) :
    ((∀ q ∈ st.portfolios, q.isAwarded = false → q.offerId = o.id →
        ∀ t ∈ q.selectedTokens, (lookupChange o.pricingChanges t).isSome = true) →
      findOffer (awardPortfolios st).offers o.id =
        some { o with offerStatus := OfferStatus.Completed } ∧
      ∀ o2 ∈ listOffersWaitingForCompletion (awardPortfolios st).offers, o2.id ≠ o.id) ∧
    ((∃ q ∈ st.portfolios, q.isAwarded = false ∧ q.offerId = o.id ∧
        ∃ t ∈ q.selectedTokens, lookupChange o.pricingChanges t = none) →
      findOffer (awardPortfolios st).offers o.id = some o ∧
      o.offerStatus = OfferStatus.WaitingForCompletion) := by
  constructor
  · intro hgok
    have hC := awardPortfolios_completes_offer st o hnd ho host hgok
    refine ⟨hC, ?_⟩
    intro o2 ho2 hc
    obtain ⟨ho2mem, ho2st⟩ := (mem_listOffersWaitingForCompletion _ o2).mp ho2
    have hnd2 : ((awardPortfolios st).offers.map (·.id)).Nodup := by
      rw [awardPortfolios_offer_ids]
      exact hnd
    have hCs := findByKey_some (show findByKey (fun x : PortfolioOffer => x.id)
      (awardPortfolios st).offers o.id =
      some { o with offerStatus := OfferStatus.Completed } from hC)
    have ho2eq : o2 = { o with offerStatus := OfferStatus.Completed } :=
      key_eq_of_mem (fun x : PortfolioOffer => x.id) hnd2 ho2mem hCs.2 (hc.trans hCs.1.symm)
    rw [ho2eq] at ho2st
    cases ho2st
  · intro hfail
    exact ⟨awardPortfolios_offer_unchanged st o hnd ho host hfail, host⟩

/-- C3 counterexample: in `cxState` the portfolio `p1` fails to score (token `C`
is unpriced), and the offer is *not* marked `Completed`: it keeps status
`WaitingForCompletion` and still appears in `listOffersWaitingForCompletion`. -/
theorem awardPortfolios_failure_blocks_completion :
    (∃ q ∈ cxState.portfolios, q.isAwarded = false ∧ q.offerId = "o1" ∧
      ∃ t ∈ q.selectedTokens, lookupChange cxOffer.pricingChanges t = none) ∧
    findOffer (awardPortfolios cxState).offers "o1" = some cxOffer ∧
    cxOffer.offerStatus ≠ OfferStatus.Completed ∧
    cxOffer ∈ listOffersWaitingForCompletion (awardPortfolios cxState).offers := by
  decide

/-- C9: a `WaitingForCompletion` offer with no matching non-awarded portfolio is
still marked `Completed` (the `|| []` substitution makes the loop body empty and
the completion write runs), and none of the offer's (necessarily awarded)
portfolios is touched. -/
theorem awardPortfolios_empty_group (st : AppState) (o : PortfolioOffer)
    (hnd : (st.offers.map (·.id)).Nodup)
    (hndp : (st.portfolios.map (·.id)).Nodup)
    (ho : o ∈ st.offers) (host : o.offerStatus = OfferStatus.WaitingForCompletion)
    (hempty : ∀ q ∈ st.portfolios, q.isAwarded = false → q.offerId ≠ o.id) :
    findOffer (awardPortfolios st).offers o.id =
      some { o with offerStatus := OfferStatus.Completed } ∧
    ∀ q ∈ st.portfolios, q.offerId = o.id →
      findPortfolio (awardPortfolios st).portfolios q.id = some q := by
  constructor
  · exact awardPortfolios_completes_offer st o hnd ho host
      (fun q hq hbf hoid => absurd hoid (hempty q hq hbf))
  · intro q hq hqo
    have hqa : q.isAwarded = true := by
      by_contra h
      have hbf : q.isAwarded = false := by
        revert h
        cases q.isAwarded <;> simp
      exact hempty q hq hbf hqo
    rw [awardPortfolios_untouched_portfolio st q.id ?_]
    · unfold findPortfolio
      exact findByKey_of_mem (fun x : Portfolio => x.id) hq hndp
    · intro f hf m hm hc
      obtain ⟨hm2, hmbf, hmoid⟩ :=
        (mem_groupFor_snapshot st _ f.id (List.mem_map_of_mem _ hf) m).mp hm
      have hmq : m = q := key_eq_of_mem (fun x : Portfolio => x.id) hndp hm2 hq hc
      rw [hmq] at hmbf
      rw [hmbf] at hqa
      cases hqa


/-- C2 witness: a single valid portfolio for a single pending offer. -/
theorem awardPortfolios_award_correct_witness :
    ((wState.offers.map (·.id)).Nodup ∧
     (wState.portfolios.map (·.id)).Nodup ∧
     (wState.users.map (·.id)).Nodup ∧
     wOffer ∈ wState.offers ∧ wOffer.offerStatus = OfferStatus.WaitingForCompletion ∧
     wPortfolio ∈ wState.portfolios ∧ wPortfolio.isAwarded = false ∧
     wPortfolio.offerId = wOffer.id ∧
     (∀ q ∈ wState.portfolios, q.isAwarded = false → q.offerId = wOffer.id →
       ∀ t ∈ q.selectedTokens, (lookupChange wOffer.pricingChanges t).isSome = true) ∧
     wUser ∈ wState.users ∧ wUser.id = wPortfolio.userId ∧
     (∀ q ∈ wState.portfolios, q.isAwarded = false → q.userId = wPortfolio.userId →
       (∃ o2 ∈ wState.offers, o2.id = q.offerId ∧
         o2.offerStatus = OfferStatus.WaitingForCompletion) → q = wPortfolio)) ∧
    (findPortfolio (awardPortfolios wState).portfolios wPortfolio.id =
      some { wPortfolio with
             isAwarded := true
             earnedPoints := some (sumChanges wOffer.pricingChanges
               wPortfolio.selectedTokens) } ∧
     findUser (awardPortfolios wState).users wUser.id =
      some { wUser with balance := wUser.balance +
               sumChanges wOffer.pricingChanges wPortfolio.selectedTokens } ∧
     findPortfolio (awardPortfolios (awardPortfolios wState)).portfolios wPortfolio.id =
       findPortfolio (awardPortfolios wState).portfolios wPortfolio.id ∧
     findUser (awardPortfolios (awardPortfolios wState)).users wUser.id =
       findUser (awardPortfolios wState).users wUser.id) :=
  ⟨⟨by decide, by decide, by decide, by decide, by decide, by decide, by decide, by decide,
    by decide, by decide, by decide, by decide⟩,
   awardPortfolios_award_correct wState wOffer wPortfolio wUser (by decide) (by decide)
     (by decide) (by decide) (by decide) (by decide) (by decide) (by decide) (by decide)
     (by decide) (by decide) (by decide)⟩

/-- C3 witness: the pending offer of `wState`. -/
theorem awardPortfolios_offer_completion_witness :
    ((wState.offers.map (·.id)).Nodup ∧ wOffer ∈ wState.offers ∧
      wOffer.offerStatus = OfferStatus.WaitingForCompletion) ∧
    (((∀ q ∈ wState.portfolios, q.isAwarded = false → q.offerId = wOffer.id →
        ∀ t ∈ q.selectedTokens, (lookupChange wOffer.pricingChanges t).isSome = true) →
      findOffer (awardPortfolios wState).offers wOffer.id =
        some { wOffer with offerStatus := OfferStatus.Completed } ∧
      ∀ o2 ∈ listOffersWaitingForCompletion (awardPortfolios wState).offers,
        o2.id ≠ wOffer.id) ∧
    ((∃ q ∈ wState.portfolios, q.isAwarded = false ∧ q.offerId = wOffer.id ∧
        ∃ t ∈ q.selectedTokens, lookupChange wOffer.pricingChanges t = none) →
      findOffer (awardPortfolios wState).offers wOffer.id = some wOffer ∧
      wOffer.offerStatus = OfferStatus.WaitingForCompletion)) :=
  ⟨⟨by decide, by decide, by decide⟩,
   awardPortfolios_offer_completion wState wOffer (by decide) (by decide) (by decide)⟩

/-- C9 witness: `w9State`, where the offer's only portfolio is already awarded. -/
theorem awardPortfolios_empty_group_witness :
    ((w9State.offers.map (·.id)).Nodup ∧
     (w9State.portfolios.map (·.id)).Nodup ∧
     wOffer ∈ w9State.offers ∧ wOffer.offerStatus = OfferStatus.WaitingForCompletion ∧
     (∀ q ∈ w9State.portfolios, q.isAwarded = false → q.offerId ≠ wOffer.id)) ∧
    (findOffer (awardPortfolios w9State).offers wOffer.id =
      some { wOffer with offerStatus := OfferStatus.Completed } ∧
    ∀ q ∈ w9State.portfolios, q.offerId = wOffer.id →
      findPortfolio (awardPortfolios w9State).portfolios q.id = some q) :=
  ⟨⟨by decide, by decide, by decide, by decide, by decide⟩,
   awardPortfolios_empty_group w9State wOffer (by decide) (by decide) (by decide)
     (by decide) (by decide)⟩

end AipickGame
